import Mathlib

/-!
Shallow embedding of the qsim discrete-event queueing simulator.

The embedding translates `src/simulator.py` (the queue-network engine) and
`src/main.py` (the single-queue variant) into executable Lean definitions:

* Python floats are idealized as exact rationals (`ℚ`);
* Python ints are `ℤ`;
* the mutable `Simulator` object becomes explicit state passing;
* fallible operations (dictionary lookups that can raise `KeyError`,
  `heappop` of an empty heap) return `Option`;
* the one draw taken from Python's *global* `random()` inside
  `_get_destination` is an explicit parameter of the passage handler,
  since it does not come from the simulator's own `random` field;
* the `dict` of queues becomes a `String → Option QState` map.  The
  source stores `Queue` objects in a dict keyed by `queue.name` and
  aliases them from events and from `start_queue`; here an object is
  identified by its `name` field, which for every constructed simulator
  equals its key in the map.
-/

/-- Python `range(start, stop)` as used by the simulator: only the
`start` and `stop` endpoints are ever read. -/
structure PyRange where
  start : ℤ
  stop : ℤ
deriving DecidableEq, Repr

/-- `EventKind` from `simulator.py`. -/
inductive EventKind where
  | arrival
  | passage
  | departure
deriving DecidableEq, Repr

/-- `Event` from `simulator.py`: the `queue` field holds the issuing
queue (by name); it is ignored for arrival events. -/
structure Event where
  time : ℚ
  kind : EventKind
  queue : String
deriving DecidableEq, Repr

/-- Python float modulo `x % m` (sign of the divisor): for `m > 0` this
is `x - m * ⌊x / m⌋`. -/
def pymod (x m : ℚ) : ℚ := x - m * ⌊x / m⌋

/-- The two random sources of `simulator.py`: the linear congruential
`Random` class (fields `a`, `c`, `m`, `previous`) and the cycling
`RandomFromList` class (fields `randoms`, `next_idx`). -/
inductive RNG where
  | lcg (a c m : ℤ) (previous : ℚ)
  | fromList (randoms : List ℚ) (next_idx : ℕ)
deriving DecidableEq, Repr

/-- `Random.next` / `RandomFromList.next`: return the next value in
[0,1) and the advanced generator state.  The LCG branch is
`self.previous = ((self.a * self.previous) + self.c) % self.m;
return self.previous / self.m`; the list branch returns
`randoms[next_idx]` and advances the cursor cyclically. -/
def RNG.next : RNG → RNG × ℚ
  | .lcg a c m prev =>
      let p := pymod ((a : ℚ) * prev + c) m
      (.lcg a c m p, p / m)
  | .fromList rs i =>
      let j := if i + 1 = rs.length then 0 else i + 1
      (.fromList rs j, rs.getD i 0)

/-- `Queue` from `simulator.py`: static parameters and running state. -/
structure QState where
  name : String
  servers : ℤ
  max_queue_size : ℤ
  departure_range : PyRange
  out : List (String × ℚ)
  in_queue : ℤ
  times_per_size : List ℚ
  events_lost : ℤ
deriving DecidableEq, Repr

/-- `Queue.is_end`: end queues have an empty outbound map (the source
computes `len(self.out) == 0` at construction; `out` is never
mutated). -/
def QState.is_end (q : QState) : Prop := q.out = []

instance (q : QState) : Decidable q.is_end :=
  inferInstanceAs (Decidable (q.out = []))

/-- `Queue.is_full`: `self.in_queue >= self.max_queue_size`. -/
def QState.is_full (q : QState) : Prop := q.in_queue ≥ q.max_queue_size

instance (q : QState) : Decidable q.is_full :=
  inferInstanceAs (Decidable (q.in_queue ≥ q.max_queue_size))

/-- `Queue.__init__`: zero occupancy, zero losses, and a
`max_queue_size + 1`-entry histogram of zeros (Python's
`[0 for _ in range(0, max_queue_size + 1)]`). -/
def mkQueue (name : String) (servers max_queue_size : ℤ)
    (departure_range : PyRange) (out : List (String × ℚ)) : QState :=
  { name := name, servers := servers, max_queue_size := max_queue_size,
    departure_range := departure_range, out := out,
    in_queue := 0,
    times_per_size := List.replicate (max_queue_size + 1).toNat 0,
    events_lost := 0 }

/-- The `Simulator` state from `simulator.py`. -/
structure SimState where
  queues : String → Option QState
  start_queue : String
  arrival_range : PyRange
  random : RNG
  schedule : List Event
  time : ℚ
  random_generated : ℤ

/-- Add `d` to entry `i` of a histogram list (Python
`l[i] += d`); out-of-range indices leave the list unchanged (the
source never indexes out of range on reachable states, see the
occupancy-bound invariant). -/
def bumpAt (l : List ℚ) (i : ℤ) (d : ℚ) : List ℚ :=
  l.set i.toNat (l.getD i.toNat 0 + d)

/-- `Simulator._set_time`: add `time - self.time` to every queue's
histogram at its current occupancy, then set the global clock. -/
def setTime (s : SimState) (t : ℚ) : SimState :=
  { s with
    queues := fun n => (s.queues n).map (fun q =>
      { q with times_per_size := bumpAt q.times_per_size q.in_queue (t - s.time) }),
    time := t }

/-- Replace the queue stored under key `n` (a Python in-place mutation
of the aliased `Queue` object). -/
def updateQ (s : SimState) (n : String) (q : QState) : SimState :=
  { s with queues := fun m => if m = n then some q else s.queues m }

/-- The linear transform `r * (range.stop - range.start) + range.start`
applied to a draw `r`, shared by `_get_arrival_time` and
`_get_departure_time`. -/
def drawRange (r : ℚ) (rg : PyRange) : ℚ :=
  r * ((rg.stop : ℚ) - (rg.start : ℚ)) + (rg.start : ℚ)

/-- `Simulator._get_arrival_time`: count one draw, consume the source,
scale into the arrival range. -/
def getArrivalTime (s : SimState) : SimState × ℚ :=
  let s := { s with random_generated := s.random_generated + 1 }
  match s.random.next with
  | (g, r) => ({ s with random := g }, drawRange r s.arrival_range)

/-- `Simulator._get_departure_time`: count one draw, consume the
source, scale into the queue's departure range. -/
def getDepartureTime (s : SimState) (q : QState) : SimState × ℚ :=
  let s := { s with random_generated := s.random_generated + 1 }
  match s.random.next with
  | (g, r) => ({ s with random := g }, drawRange r q.departure_range)

/-- `Simulator._schedule_arrival`: if no forced time is given, draw
one; push an ARRIVAL at `self.time + time` for the start queue. -/
def scheduleArrival (s : SimState) (t? : Option ℚ) : SimState :=
  match t? with
  | some t =>
      { s with schedule := s.schedule ++ [⟨s.time + t, .arrival, s.start_queue⟩] }
  | none =>
      match getArrivalTime s with
      | (s, t) =>
          { s with schedule := s.schedule ++ [⟨s.time + t, .arrival, s.start_queue⟩] }

/-- `Simulator._schedule_passage`: push a PASSAGE for `q` at
`self.time + self._get_departure_time(q)`. -/
def schedulePassage (s : SimState) (q : QState) : SimState :=
  match getDepartureTime s q with
  | (s, t) => { s with schedule := s.schedule ++ [⟨s.time + t, .passage, q.name⟩] }

/-- `Simulator._schedule_departure`: push a DEPARTURE for `q` at
`self.time + self._get_departure_time(q)`. -/
def scheduleDeparture (s : SimState) (q : QState) : SimState :=
  match getDepartureTime s q with
  | (s, t) => { s with schedule := s.schedule ++ [⟨s.time + t, .departure, q.name⟩] }

/-- The admission block shared verbatim by `_arrive` and `_pass`: if
the target queue is not full, admit the client and, when the new
occupancy is at most the server count, schedule its service
completion (DEPARTURE for end queues, PASSAGE otherwise); if the
target is full, count a lost event. -/
def tryAdmit (s : SimState) (d : QState) : SimState :=
  if ¬ d.is_full then
    let d' := { d with in_queue := d.in_queue + 1 }
    let s := updateQ s d'.name d'
    if d'.in_queue ≤ d'.servers then
      if d'.is_end then scheduleDeparture s d' else schedulePassage s d'
    else s
  else
    updateQ s d.name { d with events_lost := d.events_lost + 1 }

/-- `Simulator._arrive`: advance the clock, admit into the start queue
(or count a loss), then unconditionally schedule the next arrival.
`none` only if the start-queue lookup fails (Python `KeyError`). -/
def arrive (s : SimState) (e : Event) : Option SimState :=
  let s := setTime s e.time
  match s.queues s.start_queue with
  | none => none
  | some sq => some (scheduleArrival (tryAdmit s sq) none)

/-- One iteration of the `_get_destination` loop: subtract the entry's
probability from the running value and (re)assign the choice whenever
the running value is at or below zero. -/
def destFold (acc : ℚ × Option String) (qp : String × ℚ) : ℚ × Option String :=
  let y := acc.1 - qp.2
  (y, if y ≤ 0 then some qp.1 else acc.2)

/-- The loop of `_get_destination`: fold `destFold` over the outbound
entries, starting from the draw and `choice = None`.  Note the source
has no `break`: a later entry overwrites an earlier choice. -/
def chooseDest (out : List (String × ℚ)) (x : ℚ) : Option String :=
  (out.foldl destFold (x, (none : Option String))).2

/-- `Simulator._get_destination` given the externally drawn `x` (the
source calls the *global* `random()` here, not `self.random`):
run the subtraction loop over `queue.out`, then look the chosen name
up in `self.queues`.  `none` models the `KeyError` raised when the
choice is still `None` or names an unknown queue. -/
def getDestination (s : SimState) (q : QState) (x : ℚ) : Option QState :=
  match chooseDest q.out x with
  | none => none
  | some c => s.queues c

/-- `Simulator._pass` with the destination draw `x` passed explicitly:
advance the clock, take the passer out of service, reschedule it if
another client is waiting, then admit the client into the drawn
destination (or count a loss there). -/
def passEvt (s : SimState) (e : Event) (x : ℚ) : Option SimState :=
  let s := setTime s e.time
  match s.queues e.queue with
  | none => none
  | some q0 =>
    let q := { q0 with in_queue := q0.in_queue - 1 }
    let s := updateQ s q.name q
    let s := if q.in_queue ≥ q.servers then schedulePassage s q else s
    match getDestination s q x with
    | none => none
    | some d => some (tryAdmit s d)

/-- `Simulator._depart`: advance the clock, take the departing client
out, and reschedule the queue if another client is waiting. -/
def depart (s : SimState) (e : Event) : Option SimState :=
  let s := setTime s e.time
  match s.queues e.queue with
  | none => none
  | some q0 =>
    let q := { q0 with in_queue := q0.in_queue - 1 }
    let s := updateQ s q.name q
    some (if q.in_queue ≥ q.servers then scheduleDeparture s q else s)

/-- The earliest-deadline event of a schedule (the element `heappop`
returns; among equal times the choice below is the first, which
agrees with any min-policy whenever minimal times are unique). -/
def findEarliest : List Event → Option Event
  | [] => none
  | e :: es =>
      match findEarliest es with
      | none => some e
      | some f => if e.time ≤ f.time then some e else some f

/-- `Simulator._pop_next_event` (`heapq.heappop`): `none` on an empty
schedule (Python raises `IndexError`). -/
def popEvent (s : SimState) : Option (Event × SimState) :=
  match findEarliest s.schedule with
  | none => none
  | some e => some (e, { s with schedule := s.schedule.erase e })

/-- `Simulator.step` as an executable function, with `x` the value the
global `random()` would return inside `_get_destination` (used only
for passage events). -/
def stepF (s : SimState) (x : ℚ) : Option SimState :=
  match popEvent s with
  | none => none
  | some (e, s) =>
    match e.kind with
    | .arrival => arrive s e
    | .passage => passEvt s e x
    | .departure => depart s e

/-- `Simulator.__init__`: build the name-keyed queue dict (later
entries win, as in the dict comprehension), record the start queue
name, empty schedule, zero clock and draw counter. -/
def initSim (qs : List QState) (startq : String) (arrRange : PyRange)
    (g : RNG) : SimState :=
  { queues := qs.foldl (fun f c => fun n => if n = c.name then some c else f n)
      (fun _ => none),
    start_queue := startq,
    arrival_range := arrRange,
    random := g,
    schedule := [],
    time := 0,
    random_generated := 0 }

/-- `Simulator.start`: schedule the first arrival, forced to `t?` when
supplied, drawn otherwise. -/
def startSim (s : SimState) (t? : Option ℚ) : SimState :=
  scheduleArrival s t?

/-!
## The single-queue simulator of `src/main.py`

`main.py` contains an earlier single-queue variant of the same engine
(one implicit queue, events are either arrivals or departures) plus the
driver loop that runs a simulator until a random-draw budget is
exhausted.  It is embedded separately for the network-vs-single-queue
comparison.
-/

/-- `Event` from `main.py`: time plus an arrival flag. -/
structure SEvent where
  time : ℚ
  is_arrival : Bool
deriving DecidableEq, Repr

/-- The `Simulator` state from `main.py`. -/
structure SingleState where
  servers : ℤ
  max_queue_size : ℤ
  arrival_range : PyRange
  departure_range : PyRange
  random : RNG
  schedule : List SEvent
  in_queue : ℤ
  time : ℚ
  times_per_size : List ℚ
  random_generated : ℤ
  events_lost : ℤ
deriving Repr

/-- `Simulator.__init__` from `main.py`. -/
def initSingle (servers max_queue_size : ℤ) (arrival_range departure_range : PyRange)
    (g : RNG) : SingleState :=
  { servers := servers, max_queue_size := max_queue_size,
    arrival_range := arrival_range, departure_range := departure_range,
    random := g, schedule := [], in_queue := 0, time := 0,
    times_per_size := List.replicate (max_queue_size + 1).toNat 0,
    random_generated := 0, events_lost := 0 }

/-- `Simulator.is_full` from `main.py`. -/
def SingleState.is_full (s : SingleState) : Prop := s.in_queue ≥ s.max_queue_size

instance (s : SingleState) : Decidable s.is_full :=
  inferInstanceAs (Decidable (s.in_queue ≥ s.max_queue_size))

/-- `Simulator._set_time` from `main.py`. -/
def sSetTime (s : SingleState) (t : ℚ) : SingleState :=
  { s with times_per_size := bumpAt s.times_per_size s.in_queue (t - s.time),
           time := t }

/-- `Simulator._get_arrival_time` from `main.py`. -/
def sGetArrivalTime (s : SingleState) : SingleState × ℚ :=
  let s := { s with random_generated := s.random_generated + 1 }
  match s.random.next with
  | (g, r) => ({ s with random := g }, drawRange r s.arrival_range)

/-- `Simulator._get_departure_time` from `main.py`. -/
def sGetDepartureTime (s : SingleState) : SingleState × ℚ :=
  let s := { s with random_generated := s.random_generated + 1 }
  match s.random.next with
  | (g, r) => ({ s with random := g }, drawRange r s.departure_range)

/-- `Simulator._schedule_arrival` from `main.py`. -/
def sScheduleArrival (s : SingleState) (t? : Option ℚ) : SingleState :=
  match t? with
  | some t => { s with schedule := s.schedule ++ [⟨s.time + t, true⟩] }
  | none =>
      match sGetArrivalTime s with
      | (s, t) => { s with schedule := s.schedule ++ [⟨s.time + t, true⟩] }

/-- `Simulator._schedule_departure` from `main.py`. -/
def sScheduleDeparture (s : SingleState) : SingleState :=
  match sGetDepartureTime s with
  | (s, t) => { s with schedule := s.schedule ++ [⟨s.time + t, false⟩] }

/-- `Simulator._arrive` from `main.py`. -/
def sArrive (s : SingleState) (e : SEvent) : SingleState :=
  let s := sSetTime s e.time
  let s :=
    if ¬ s.is_full then
      let s := { s with in_queue := s.in_queue + 1 }
      if s.in_queue ≤ s.servers then sScheduleDeparture s else s
    else
      { s with events_lost := s.events_lost + 1 }
  sScheduleArrival s none

/-- `Simulator._depart` from `main.py`. -/
def sDepart (s : SingleState) (e : SEvent) : SingleState :=
  let s := sSetTime s e.time
  let s := { s with in_queue := s.in_queue - 1 }
  if s.in_queue ≥ s.servers then sScheduleDeparture s else s

/-- Earliest-deadline event of the single-queue schedule. -/
def sFindEarliest : List SEvent → Option SEvent
  | [] => none
  | e :: es =>
      match sFindEarliest es with
      | none => some e
      | some f => if e.time ≤ f.time then some e else some f

/-- `Simulator.step` from `main.py` (`none` models `heappop` on an
empty schedule). -/
def sStep (s : SingleState) : Option SingleState :=
  match sFindEarliest s.schedule with
  | none => none
  | some e =>
    let s := { s with schedule := s.schedule.erase e }
    some (if e.is_arrival then sArrive s e else sDepart s e)

/-- `Simulator.start` from `main.py`. -/
def startSingle (s : SingleState) (t? : Option ℚ) : SingleState :=
  sScheduleArrival s t?

/-- The driver loop of `main.main`: keep stepping while the remaining
random-draw budget is positive, decreasing it by the number of draws
each step consumed.  `fuel` bounds the number of iterations (the
Python loop has no such bound; every run compared below finishes
within its fuel). -/
def driveSingle : ℕ → SingleState → ℤ → SingleState
  | 0, s, _ => s
  | fuel + 1, s, rem =>
      if rem > 0 then
        match sStep s with
        | none => s
        | some s' => driveSingle fuel s' (rem - (s'.random_generated - s.random_generated))
      else s

/-- The same driver loop run against the network simulator of
`simulator.py`.  The destination draw that `_get_destination` takes
from the global `random()` is supplied as the constant `x`; in the
configurations compared below every passage has a single outbound
entry of probability 1, for which the chosen destination is the same
for every draw in [0,1). -/
def driveNet (x : ℚ) : ℕ → SimState → ℤ → SimState
  | 0, s, _ => s
  | fuel + 1, s, rem =>
      if rem > 0 then
        match stepF s x with
        | none => s
        | some s' => driveNet x fuel s' (rem - (s'.random_generated - s.random_generated))
      else s

/-!
## The linear-congruential source against the spec recurrence
-/

/-- The spec-side integer recurrence: `x ← (a·x + c) mod m` (Python's
`%` with a positive modulus is Euclidean `emod`). -/
def lcgSpecStep (a c m x : ℤ) : ℤ := (a * x + c) % m

/-- `n` applications of the spec recurrence. -/
def lcgSpecIter (a c m : ℤ) : ℕ → ℤ → ℤ
  | 0, x => x
  | n + 1, x => lcgSpecIter a c m n (lcgSpecStep a c m x)

/-- The list of outputs of `n` successive `next()` calls. -/
def rngRun : RNG → ℕ → List ℚ
  | _, 0 => []
  | g, n + 1 =>
      match g.next with
      | (g', r) => r :: rngRun g' n

/-- Python float `%` agrees with integer Euclidean `%` on integer
arguments with a positive modulus. -/
lemma pymod_intCast (i m : ℤ) (hm : 0 < m) :
    pymod (i : ℚ) (m : ℚ) = ((i % m : ℤ) : ℚ) := by
  have hmn : ((m.toNat : ℕ) : ℚ) = (m : ℚ) := by
    norm_cast
    exact Int.toNat_of_nonneg hm.le
  have hfl : ⌊(i : ℚ) / (m : ℚ)⌋ = i / m := by
    rw [← hmn, Rat.floor_intCast_div_natCast, Int.toNat_of_nonneg hm.le]
  rw [pymod, hfl, Int.emod_def]
  push_cast
  ring

/-- One `next()` call on the LCG with integer state lands on the next
integer state of the spec recurrence. -/
lemma RNG.next_lcg_int (a c m x : ℤ) (hm : 0 < m) :
    (RNG.lcg a c m (x : ℚ)).next =
      (RNG.lcg a c m ((lcgSpecStep a c m x : ℤ) : ℚ),
        ((lcgSpecStep a c m x : ℤ) : ℚ) / (m : ℚ)) := by
  have h : pymod ((a : ℚ) * (x : ℚ) + (c : ℚ)) (m : ℚ)
      = ((lcgSpecStep a c m x : ℤ) : ℚ) := by
    have hcast : ((a : ℚ) * (x : ℚ) + (c : ℚ)) = (((a * x + c : ℤ)) : ℚ) := by
      push_cast; ring
    rw [hcast, pymod_intCast _ _ hm, lcgSpecStep]
  simp [RNG.next, h]

/-- Every state the spec recurrence reaches after at least one step
lies in `[0, m)`. -/
lemma lcgSpecIter_bounds (a c m : ℤ) (hm : 0 < m) :
    ∀ (n : ℕ) (x : ℤ), 0 ≤ lcgSpecIter a c m (n + 1) x ∧ lcgSpecIter a c m (n + 1) x < m := by
  intro n
  induction n with
  | zero =>
      intro x
      simp only [lcgSpecIter, lcgSpecStep]
      exact ⟨Int.emod_nonneg _ (by omega), Int.emod_lt_of_pos _ hm⟩
  | succ k ih =>
      intro x
      have : lcgSpecIter a c m (k + 1 + 1) x = lcgSpecIter a c m (k + 1) (lcgSpecStep a c m x) := rfl
      rw [this]
      exact ih _
/-- C8: the linear-congruential source with integer parameters `a`, `c`,
`m` (`m > 0`) and integer seed implements the recurrence
`x ← (a·x + c) mod m`: the k-th of `n` successive `next()` calls
returns exactly `x_(k+1) / m` where `x_j` is the j-th iterate of the
integer recurrence from the seed, and every returned draw lies in
[0,1).  `rngRun` is a pure function of `(a, c, m, seed, n)`, so
identical parameters and an identical sequence of calls reproduce
identical draws. -/
theorem lcg_implements_spec_recurrence (a c m seed : ℤ) (n : ℕ) (hm : 0 < m) :
    rngRun (RNG.lcg a c m (seed : ℚ)) n =
      (List.range n).map
        (fun k => ((lcgSpecIter a c m (k + 1) seed : ℤ) : ℚ) / (m : ℚ)) ∧
    ∀ r ∈ rngRun (RNG.lcg a c m (seed : ℚ)) n, 0 ≤ r ∧ r < 1 := by
  have key : ∀ (n : ℕ) (x : ℤ),
      rngRun (RNG.lcg a c m (x : ℚ)) n =
        (List.range n).map
          (fun k => ((lcgSpecIter a c m (k + 1) x : ℤ) : ℚ) / (m : ℚ)) := by
    intro n
    induction n with
    | zero => intro x; simp [rngRun]
    | succ k ih =>
        intro x
        rw [List.range_succ_eq_map]
        have hstep : rngRun (RNG.lcg a c m (x : ℚ)) (k + 1)
            = ((lcgSpecStep a c m x : ℤ) : ℚ) / (m : ℚ)
              :: rngRun (RNG.lcg a c m ((lcgSpecStep a c m x : ℤ) : ℚ)) k := by
          simp [rngRun, RNG.next_lcg_int a c m x hm]
        rw [hstep, ih (lcgSpecStep a c m x)]
        simp only [List.map_cons, List.map_map]
        rfl
  refine ⟨key n seed, ?_⟩
  intro r hr
  rw [key n seed] at hr
  obtain ⟨k, _, rfl⟩ := List.mem_map.mp hr
  obtain ⟨h0, h1⟩ := lcgSpecIter_bounds a c m hm k seed
  constructor
  · positivity
  · rw [div_lt_one (by exact_mod_cast hm)]
    exact_mod_cast h1

/-- Witness for C8 at `a = 5`, `c = 3`, `m = 16`, `seed = 7`, three
calls. -/
theorem lcg_implements_spec_recurrence_witness :
    (0 : ℤ) < 16 ∧
    (rngRun (RNG.lcg 5 3 16 ((7 : ℤ) : ℚ)) 3 =
      (List.range 3).map
        (fun k => ((lcgSpecIter 5 3 16 (k + 1) 7 : ℤ) : ℚ) / ((16 : ℤ) : ℚ)) ∧
    ∀ r ∈ rngRun (RNG.lcg 5 3 16 ((7 : ℤ) : ℚ)) 3, 0 ≤ r ∧ r < 1) :=
  ⟨by decide, lcg_implements_spec_recurrence 5 3 16 7 3 (by decide)⟩

/-!
## Concrete queue names and the semireducible arithmetic needed to
evaluate the model on closed inputs
-/

set_option allowUnsafeReducibility true
attribute [semireducible] Rat.add Rat.mul Rat.div Rat.inv Rat.sub Rat.neg

def qnA : String := "A"
def qnB : String := "B"
def qnC : String := "C"
def qnQ : String := "Q"

/-- C1: evaluating `_get_destination`'s loop at the spec's own example
`outbound = [(B, 0.3), (C, 0.7)]`: a draw of 0.2 yields `C`, not the
claimed `B` (and a draw of 0.5 also yields `C`).  Because the loop
has no `break`, once the running value crosses zero every later entry
overwrites `choice`, so the last declared entry always wins. -/
theorem route_spec_example_yields_C :
    chooseDest [(qnB, 3/10), (qnC, 7/10)] (2/10) = some qnC ∧
    chooseDest [(qnB, 3/10), (qnC, 7/10)] (5/10) = some qnC ∧
    qnC ≠ qnB := by decide

/-- The queue `Q` of the C2 counter-run: one server, capacity 5,
outbound `{B: 1/2}`, one client in service. -/
def c2Q : QState :=
  { name := qnQ, servers := 1, max_queue_size := 5, departure_range := ⟨1, 2⟩,
    out := [(qnB, 1/2)], in_queue := 1,
    times_per_size := [0, 0, 0, 0, 0, 0], events_lost := 0 }

/-- The queue `B` of the C2 counter-run: one busy server, capacity 2,
terminal. -/
def c2B : QState :=
  { name := qnB, servers := 1, max_queue_size := 2, departure_range := ⟨1, 2⟩,
    out := [], in_queue := 1, times_per_size := [0, 0, 0], events_lost := 0 }

/-- A simulator state about to process a PASSAGE at `Q`. -/
def c2State : SimState :=
  { queues := fun n => if n = qnQ then some c2Q else if n = qnB then some c2B else none,
    start_queue := qnQ, arrival_range := ⟨1, 2⟩,
    random := RNG.fromList [1/2] 0,
    schedule := [], time := 1, random_generated := 0 }

/-- The PASSAGE event popped in the C2 counter-run. -/
def c2Event : Event := ⟨2, .passage, qnQ⟩

/-- C2 evaluated at the failing input: processing the same PASSAGE
from the same state with two different values of the *global*
`random()` draw gives two different outcomes (with draw 1/4 the
client enters `B`; with draw 3/4 the routing loop never crosses zero
and the `self.queues[None]` lookup fails), while the Engine's own
sequence source and its `random_generated` counter are untouched in
the successful run.  The outcome of a passage is therefore not a
function of the Engine's polymorphic source, contradicting the claim
that every draw is obtained from it. -/
theorem pass_destination_draw_not_from_engine_source :
    ((passEvt c2State c2Event (1/4)).map
        (fun t => ((t.queues qnB).map QState.in_queue, t.random, t.random_generated))
      = some (some 2, RNG.fromList [1/2] 0, 0)) ∧
    (passEvt c2State c2Event (3/4)).isNone = true := by decide

/-!
## C10: totality of `_get_destination` under covering probabilities
-/

/-- If the running value ends at or below zero, the loop's final choice
is the last entry (each entry past the crossing point overwrites the
choice, and the running value only decreases past nonneg entries —
but in fact no sign assumption is needed: the last entry assigns
exactly when the final running value is ≤ 0). -/
lemma destFold_last (out : List (String × ℚ)) :
    ∀ (x : ℚ) (c : Option String) (hne : out ≠ []),
      x - (out.map Prod.snd).sum ≤ 0 →
      (out.foldl destFold (x, c)).2 = some (out.getLast hne).1 := by
  induction out with
  | nil => intro _ _ hne; exact absurd rfl hne
  | cons a rest ih =>
      intro x c _ hsum
      cases rest with
      | nil =>
          simp only [List.foldl, destFold, List.map, List.sum_cons, List.sum_nil] at *
          rw [if_pos (by linarith)]
          rfl
      | cons b rest' =>
          have hne' : b :: rest' ≠ [] := by simp
          have : x - ((a :: b :: rest').map Prod.snd).sum
              = (x - a.2) - ((b :: rest').map Prod.snd).sum := by
            simp only [List.map_cons, List.sum_cons]
            ring
          rw [this] at hsum
          have := ih (x - a.2) (if x - a.2 ≤ 0 then some a.1 else c) hne' hsum
          simpa [destFold, List.getLast] using this

/-- If the probabilities are nonnegative and sum to less than the
running value, the loop never assigns and the choice stays what it
was. -/
lemma destFold_none (out : List (String × ℚ)) :
    ∀ (x : ℚ) (c : Option String), (∀ p ∈ out, 0 ≤ p.2) →
      (out.map Prod.snd).sum < x →
      (out.foldl destFold (x, c)).2 = c := by
  induction out with
  | nil => intro x c _ _; rfl
  | cons a rest ih =>
      intro x c hnn hsum
      have hrest : 0 ≤ ((rest).map Prod.snd).sum := by
        apply List.sum_nonneg
        intro y hy
        obtain ⟨p, hp, rfl⟩ := List.mem_map.mp hy
        exact hnn p (List.mem_cons_of_mem _ hp)
      have hsum' : ((rest).map Prod.snd).sum < x - a.2 := by
        simp only [List.map_cons, List.sum_cons] at hsum
        linarith
      have hy : ¬ (x - a.2 ≤ 0) := by linarith
      simp only [List.foldl, destFold, if_neg hy]
      exact ih (x - a.2) c (fun p hp => hnn p (List.mem_cons_of_mem _ hp)) hsum'

/-- C10: if the outbound probabilities sum to 1, every outbound id is
a known queue, and the draw is less than 1, then the loop elects some
declared destination and the final `self.queues[choice]` lookup
succeeds.  Conversely — second conjunct — whenever (nonnegative)
probabilities sum to less than the draw, `choice` stays `None` and
`getDestination` fails, so the error branch is unreachable only for
covering (validated) routing tables. -/
theorem getDestination_total_under_validation
    (s : SimState) (q : QState) (x : ℚ)
    (hsum : (q.out.map Prod.snd).sum = 1) (hx0 : 0 ≤ x) (hx1 : x < 1)
    (hkeys : ∀ p ∈ q.out, (s.queues p.1).isSome = true) :
    (∃ d, chooseDest q.out x = some d ∧ d ∈ q.out.map Prod.fst ∧
      (getDestination s q x).isSome = true) ∧
    (∀ (out : List (String × ℚ)) (y : ℚ) (s' : SimState) (q' : QState),
      (∀ p ∈ out, 0 ≤ p.2) → (out.map Prod.snd).sum < y → q'.out = out →
      chooseDest out y = none ∧ getDestination s' q' y = none) := by
  constructor
  · have hne : q.out ≠ [] := by
      intro h0
      rw [h0] at hsum
      simp at hsum
    have hcross : x - (q.out.map Prod.snd).sum ≤ 0 := by rw [hsum]; linarith
    have hlast := destFold_last q.out x none hne hcross
    refine ⟨(q.out.getLast hne).1, ?_, ?_, ?_⟩
    · exact hlast
    · exact List.mem_map.mpr ⟨q.out.getLast hne, List.getLast_mem hne, rfl⟩
    · have hmem := List.getLast_mem hne
      have := hkeys _ hmem
      rw [getDestination, chooseDest, hlast]
      exact this
  · intro out y s' q' hnn hlt hq
    have hnone : chooseDest out y = none := destFold_none out y none hnn hlt
    refine ⟨hnone, ?_⟩
    rw [getDestination, hq, hnone]

/-- Witness for C10: a queue with outbound `[(B, 1)]` in a state where
`B` exists, and the draw 1/2. -/
theorem getDestination_total_under_validation_witness :
    (((mkQueue qnQ 1 1 ⟨1, 2⟩ [(qnB, 1)]).out.map Prod.snd).sum = 1 ∧
      (0 : ℚ) ≤ 1/2 ∧ (1/2 : ℚ) < 1 ∧
      (∀ p ∈ (mkQueue qnQ 1 1 ⟨1, 2⟩ [(qnB, 1)]).out,
        ((c2State.queues p.1).isSome = true))) ∧
    ((∃ d, chooseDest (mkQueue qnQ 1 1 ⟨1, 2⟩ [(qnB, 1)]).out (1/2) = some d ∧
        d ∈ (mkQueue qnQ 1 1 ⟨1, 2⟩ [(qnB, 1)]).out.map Prod.fst ∧
        (getDestination c2State (mkQueue qnQ 1 1 ⟨1, 2⟩ [(qnB, 1)]) (1/2)).isSome = true) ∧
      (∀ (out : List (String × ℚ)) (y : ℚ) (s' : SimState) (q' : QState),
        (∀ p ∈ out, 0 ≤ p.2) → (out.map Prod.snd).sum < y → q'.out = out →
        chooseDest out y = none ∧ getDestination s' q' y = none)) :=
  ⟨⟨by decide, by decide, by decide, by decide⟩,
    getDestination_total_under_validation c2State (mkQueue qnQ 1 1 ⟨1, 2⟩ [(qnB, 1)]) (1/2)
      (by decide) (by decide) (by decide) (by decide)⟩

/-!
## Structural lemmas about the engine's primitive operations
-/

lemma setTime_def (s : SimState) (t : ℚ) :
    setTime s t =
      { s with
        queues := fun n => (s.queues n).map (fun q =>
          { q with times_per_size := bumpAt q.times_per_size q.in_queue (t - s.time) }),
        time := t } := rfl

lemma updateQ_def (s : SimState) (n : String) (q : QState) :
    updateQ s n q = { s with queues := fun m => if m = n then some q else s.queues m } := rfl

lemma schedulePassage_def (s : SimState) (q : QState) :
    schedulePassage s q =
      { s with
        random_generated := s.random_generated + 1,
        random := (s.random.next).1,
        schedule := s.schedule ++
          [⟨s.time + drawRange (s.random.next).2 q.departure_range, .passage, q.name⟩] } := by
  rcases hgr : s.random.next with ⟨g, r⟩
  simp [schedulePassage, getDepartureTime, hgr]

lemma scheduleDeparture_def (s : SimState) (q : QState) :
    scheduleDeparture s q =
      { s with
        random_generated := s.random_generated + 1,
        random := (s.random.next).1,
        schedule := s.schedule ++
          [⟨s.time + drawRange (s.random.next).2 q.departure_range, .departure, q.name⟩] } := by
  rcases hgr : s.random.next with ⟨g, r⟩
  simp [scheduleDeparture, getDepartureTime, hgr]

lemma scheduleArrival_none_def (s : SimState) :
    scheduleArrival s none =
      { s with
        random_generated := s.random_generated + 1,
        random := (s.random.next).1,
        schedule := s.schedule ++
          [⟨s.time + drawRange (s.random.next).2 s.arrival_range, .arrival, s.start_queue⟩] } := by
  rcases hgr : s.random.next with ⟨g, r⟩
  simp [scheduleArrival, getArrivalTime, hgr]

lemma scheduleArrival_some_def (s : SimState) (t : ℚ) :
    scheduleArrival s (some t) =
      { s with schedule := s.schedule ++ [⟨s.time + t, .arrival, s.start_queue⟩] } := rfl

lemma tryAdmit_full (s : SimState) (d : QState) (h : d.is_full) :
    tryAdmit s d = updateQ s d.name { d with events_lost := d.events_lost + 1 } := by
  simp [tryAdmit, h]

lemma tryAdmit_wait (s : SimState) (d : QState) (h : ¬ d.is_full)
    (h2 : ¬ (d.in_queue + 1 ≤ d.servers)) :
    tryAdmit s d = updateQ s d.name { d with in_queue := d.in_queue + 1 } := by
  simp [tryAdmit, h, h2]

lemma tryAdmit_serve_end (s : SimState) (d : QState) (h : ¬ d.is_full)
    (h2 : d.in_queue + 1 ≤ d.servers) (h3 : d.is_end) :
    tryAdmit s d =
      scheduleDeparture (updateQ s d.name { d with in_queue := d.in_queue + 1 })
        { d with in_queue := d.in_queue + 1 } := by
  have h3' : ({ d with in_queue := d.in_queue + 1 } : QState).is_end := h3
  have h2' : ({ d with in_queue := d.in_queue + 1 } : QState).in_queue
      ≤ ({ d with in_queue := d.in_queue + 1 } : QState).servers := h2
  simp only [tryAdmit]
  rw [if_pos h, if_pos h2', if_pos h3']

lemma tryAdmit_serve_mid (s : SimState) (d : QState) (h : ¬ d.is_full)
    (h2 : d.in_queue + 1 ≤ d.servers) (h3 : ¬ d.is_end) :
    tryAdmit s d =
      schedulePassage (updateQ s d.name { d with in_queue := d.in_queue + 1 })
        { d with in_queue := d.in_queue + 1 } := by
  have h3' : ¬ ({ d with in_queue := d.in_queue + 1 } : QState).is_end := h3
  have h2' : ({ d with in_queue := d.in_queue + 1 } : QState).in_queue
      ≤ ({ d with in_queue := d.in_queue + 1 } : QState).servers := h2
  simp only [tryAdmit]
  rw [if_pos h, if_pos h2', if_neg h3']

lemma arrive_eq (s : SimState) (e : Event) (sq : QState)
    (h : (setTime s e.time).queues s.start_queue = some sq) :
    arrive s e = some (scheduleArrival (tryAdmit (setTime s e.time) sq) none) := by
  rw [arrive]
  simp only [setTime_def] at h ⊢
  rw [h]

lemma arrive_none (s : SimState) (e : Event)
    (h : (setTime s e.time).queues s.start_queue = none) :
    arrive s e = none := by
  rw [arrive]
  simp only [setTime_def] at h ⊢
  rw [h]

/-!
## C5: the ARRIVAL transition rule
-/

/-- C5: processing an ARRIVAL event follows the spec's transition rule.
With `sq` the entry queue as seen right after the clock advance
(`setTime s e.time` — the clock advance also books the elapsed
interval into every queue's histogram, which is why queue states are
compared against the post-advance state): if the entry queue is full
only its loss counter changes and no service event is scheduled;
otherwise its occupancy is incremented and exactly when the new
occupancy is ≤ its server count one DEPARTURE (entry terminal) or
PASSAGE (entry non-terminal) is scheduled at
`clock + draw(service_time_range)`; in every case the next ARRIVAL is
unconditionally appended at `clock + draw(arrival_range)`, with the
draws taken in program order from the engine's own source. -/
theorem arrive_follows_transition_rule (s : SimState) (e : Event) (sq : QState)
    (h : (setTime s e.time).queues s.start_queue = some sq)
    (hname : sq.name = s.start_queue) :
    ∃ s', arrive s e = some s' ∧ s'.time = e.time ∧
      (sq.is_full →
        s'.queues s.start_queue = some { sq with events_lost := sq.events_lost + 1 } ∧
        (∀ n, n ≠ s.start_queue → s'.queues n = (setTime s e.time).queues n) ∧
        s'.schedule = (setTime s e.time).schedule ++
          [⟨e.time + drawRange ((s.random.next).2) s.arrival_range, .arrival, s.start_queue⟩]) ∧
      (¬ sq.is_full →
        s'.queues s.start_queue = some { sq with in_queue := sq.in_queue + 1 } ∧
        (∀ n, n ≠ s.start_queue → s'.queues n = (setTime s e.time).queues n) ∧
        (sq.in_queue + 1 ≤ sq.servers → sq.is_end →
          s'.schedule = (setTime s e.time).schedule ++
            [⟨e.time + drawRange ((s.random.next).2) sq.departure_range, .departure,
              s.start_queue⟩] ++
            [⟨e.time + drawRange (((s.random.next).1.next).2) s.arrival_range, .arrival,
              s.start_queue⟩]) ∧
        (sq.in_queue + 1 ≤ sq.servers → ¬ sq.is_end →
          s'.schedule = (setTime s e.time).schedule ++
            [⟨e.time + drawRange ((s.random.next).2) sq.departure_range, .passage,
              s.start_queue⟩] ++
            [⟨e.time + drawRange (((s.random.next).1.next).2) s.arrival_range, .arrival,
              s.start_queue⟩]) ∧
        (¬ (sq.in_queue + 1 ≤ sq.servers) →
          s'.schedule = (setTime s e.time).schedule ++
            [⟨e.time + drawRange ((s.random.next).2) s.arrival_range, .arrival,
              s.start_queue⟩])) := by
  refine ⟨_, arrive_eq s e sq h, ?_⟩
  by_cases hf : sq.is_full
  · rw [tryAdmit_full _ _ hf]
    refine ⟨by simp [scheduleArrival_none_def, updateQ_def, setTime_def], ?_, ?_⟩
    · intro _
      refine ⟨?_, ?_, ?_⟩
      · simp [scheduleArrival_none_def, updateQ_def, hname]
      · intro n hn
        simp [scheduleArrival_none_def, updateQ_def, hname, hn]
      · simp [scheduleArrival_none_def, updateQ_def, setTime_def]
    · intro hnf
      exact absurd hf hnf
  · by_cases hs : sq.in_queue + 1 ≤ sq.servers
    · by_cases he : sq.is_end
      · rw [tryAdmit_serve_end _ _ hf hs he]
        refine ⟨by simp [scheduleArrival_none_def, scheduleDeparture_def, updateQ_def,
            setTime_def], ?_, ?_⟩
        · intro hf'; exact absurd hf' hf
        · intro _
          refine ⟨?_, ?_, ?_, ?_, ?_⟩
          · simp [scheduleArrival_none_def, scheduleDeparture_def, updateQ_def, hname]
          · intro n hn
            simp [scheduleArrival_none_def, scheduleDeparture_def, updateQ_def, hname, hn]
          · intro _ _
            simp [scheduleArrival_none_def, scheduleDeparture_def, updateQ_def, setTime_def,
              hname]
          · intro _ he'
            exact absurd he he'
          · intro hs'
            exact absurd hs hs'
      · rw [tryAdmit_serve_mid _ _ hf hs he]
        refine ⟨by simp [scheduleArrival_none_def, schedulePassage_def, updateQ_def,
            setTime_def], ?_, ?_⟩
        · intro hf'; exact absurd hf' hf
        · intro _
          refine ⟨?_, ?_, ?_, ?_, ?_⟩
          · simp [scheduleArrival_none_def, schedulePassage_def, updateQ_def, hname]
          · intro n hn
            simp [scheduleArrival_none_def, schedulePassage_def, updateQ_def, hname, hn]
          · intro _ he'
            exact absurd he' he
          · intro _ _
            simp [scheduleArrival_none_def, schedulePassage_def, updateQ_def, setTime_def,
              hname]
          · intro hs'
            exact absurd hs hs'
    · rw [tryAdmit_wait _ _ hf hs]
      refine ⟨by simp [scheduleArrival_none_def, updateQ_def, setTime_def], ?_, ?_⟩
      · intro hf'; exact absurd hf' hf
      · intro _
        refine ⟨?_, ?_, ?_, ?_, ?_⟩
        · simp [scheduleArrival_none_def, updateQ_def, hname]
        · intro n hn
          simp [scheduleArrival_none_def, updateQ_def, hname, hn]
        · intro hs' _
          exact absurd hs' hs
        · intro hs' _
          exact absurd hs' hs
        · intro _
          simp [scheduleArrival_none_def, updateQ_def, setTime_def]

/-- The entry queue of the C5 witness: terminal, one server,
capacity 2, empty. -/
def c5Q : QState := mkQueue qnQ 1 2 ⟨1, 2⟩ []

/-- The simulator of the C5 witness. -/
def c5State : SimState :=
  { queues := fun n => if n = qnQ then some c5Q else none,
    start_queue := qnQ, arrival_range := ⟨2, 4⟩,
    random := RNG.fromList [1/2] 0,
    schedule := [], time := 0, random_generated := 0 }

/-- The arrival event of the C5 witness. -/
def c5Event : Event := ⟨0, .arrival, qnQ⟩

/-- Witness for C5 at the concrete state `c5State`. -/
theorem arrive_follows_transition_rule_witness :
    ((setTime c5State c5Event.time).queues c5State.start_queue = some c5Q ∧
      c5Q.name = c5State.start_queue) ∧
    (∃ s', arrive c5State c5Event = some s' ∧ s'.time = c5Event.time ∧
      (c5Q.is_full →
        s'.queues c5State.start_queue
            = some { c5Q with events_lost := c5Q.events_lost + 1 } ∧
        (∀ n, n ≠ c5State.start_queue →
          s'.queues n = (setTime c5State c5Event.time).queues n) ∧
        s'.schedule = (setTime c5State c5Event.time).schedule ++
          [⟨c5Event.time + drawRange ((c5State.random.next).2) c5State.arrival_range,
            .arrival, c5State.start_queue⟩]) ∧
      (¬ c5Q.is_full →
        s'.queues c5State.start_queue = some { c5Q with in_queue := c5Q.in_queue + 1 } ∧
        (∀ n, n ≠ c5State.start_queue →
          s'.queues n = (setTime c5State c5Event.time).queues n) ∧
        (c5Q.in_queue + 1 ≤ c5Q.servers → c5Q.is_end →
          s'.schedule = (setTime c5State c5Event.time).schedule ++
            [⟨c5Event.time + drawRange ((c5State.random.next).2) c5Q.departure_range,
              .departure, c5State.start_queue⟩] ++
            [⟨c5Event.time + drawRange (((c5State.random.next).1.next).2)
                c5State.arrival_range, .arrival, c5State.start_queue⟩]) ∧
        (c5Q.in_queue + 1 ≤ c5Q.servers → ¬ c5Q.is_end →
          s'.schedule = (setTime c5State c5Event.time).schedule ++
            [⟨c5Event.time + drawRange ((c5State.random.next).2) c5Q.departure_range,
              .passage, c5State.start_queue⟩] ++
            [⟨c5Event.time + drawRange (((c5State.random.next).1.next).2)
                c5State.arrival_range, .arrival, c5State.start_queue⟩]) ∧
        (¬ (c5Q.in_queue + 1 ≤ c5Q.servers) →
          s'.schedule = (setTime c5State c5Event.time).schedule ++
            [⟨c5Event.time + drawRange ((c5State.random.next).2) c5State.arrival_range,
              .arrival, c5State.start_queue⟩]))) :=
  ⟨⟨by decide, by decide⟩,
    arrive_follows_transition_rule c5State c5Event c5Q (by decide) (by decide)⟩

/-!
## The step relation and the reachable-state invariant
-/

/-- Adding `d` inside the list really adds `d` to the sum when the
index is in range. -/
lemma sum_bumpAt (l : List ℚ) (i : ℕ) (d : ℚ) (h : i < l.length) :
    (l.set i (l.getD i 0 + d)).sum = l.sum + d := by
  induction l generalizing i with
  | nil => simp at h
  | cons a t ih =>
      cases i with
      | zero =>
          simp only [List.getD_cons_zero, List.set_cons_zero, List.sum_cons]
          ring
      | succ j =>
          simp only [List.getD_cons_succ, List.set_cons_succ, List.sum_cons]
          rw [ih j (by simpa using h)]
          ring

/-- Well-formedness of a random source: a positive modulus for the
LCG, values in [0,1) for the replay list. -/
def RNGValid : RNG → Prop
  | .lcg _ _ m _ => 0 < m
  | .fromList rs _ => ∀ r ∈ rs, 0 ≤ r ∧ r < 1

instance : (g : RNG) → Decidable (RNGValid g)
  | .lcg _ _ m _ => inferInstanceAs (Decidable (0 < m))
  | .fromList rs _ => inferInstanceAs (Decidable (∀ r ∈ rs, 0 ≤ r ∧ r < 1))

/-- Python float `%` with a positive modulus lands in `[0, m)`. -/
lemma pymod_bounds (x m : ℚ) (hm : 0 < m) : 0 ≤ pymod x m ∧ pymod x m < m := by
  have hm0 : (m : ℚ) ≠ 0 := ne_of_gt hm
  have h1 : pymod x m = m * Int.fract (x / m) := by
    rw [pymod, Int.fract]
    field_simp
  constructor
  · rw [h1]
    exact mul_nonneg hm.le (Int.fract_nonneg _)
  · rw [h1]
    calc m * Int.fract (x / m) < m * 1 :=
          (mul_lt_mul_left hm).mpr (Int.fract_lt_one _)
    _ = m := mul_one m

/-- A well-formed source stays well-formed and only emits values in
[0,1). -/
lemma RNG.next_valid (g : RNG) (h : RNGValid g) :
    RNGValid (g.next).1 ∧ 0 ≤ (g.next).2 ∧ (g.next).2 < 1 := by
  cases g with
  | lcg a c m prev =>
      have hm : (0 : ℤ) < m := h
      have hmq : (0 : ℚ) < (m : ℚ) := by exact_mod_cast hm
      obtain ⟨h0, h1⟩ := pymod_bounds ((a : ℚ) * prev + c) m hmq
      refine ⟨h, ?_, ?_⟩
      · exact div_nonneg h0 hmq.le
      · rw [RNG.next]
        simp only
        rw [div_lt_one hmq]
        exact h1
  | fromList rs i =>
      refine ⟨h, ?_⟩
      by_cases hi : i < rs.length
      · have : rs.getD i 0 = rs[i] := List.getD_eq_getElem rs 0 hi
        rw [RNG.next]
        simp only [this]
        exact h _ (List.getElem_mem hi)
      · have : rs.getD i 0 = 0 := List.getD_eq_default rs 0 (by omega)
        rw [RNG.next]
        simp only [this]
        norm_num

/-- Number of pending PASSAGE/DEPARTURE events of queue `n` (the
events whose processing decrements `n`'s occupancy). -/
def countPD (sched : List Event) (n : String) : ℕ :=
  match sched with
  | [] => 0
  | e :: es => (if e.queue = n ∧ e.kind ≠ .arrival then 1 else 0) + countPD es n

/-- Number of pending ARRIVAL events. -/
def countArr (sched : List Event) : ℕ :=
  match sched with
  | [] => 0
  | e :: es => (if e.kind = .arrival then 1 else 0) + countArr es

lemma countPD_append (l₁ l₂ : List Event) (n : String) :
    countPD (l₁ ++ l₂) n = countPD l₁ n + countPD l₂ n := by
  induction l₁ with
  | nil => simp [countPD]
  | cons a t ih => simp [countPD, ih]; ring

lemma countArr_append (l₁ l₂ : List Event) :
    countArr (l₁ ++ l₂) = countArr l₁ + countArr l₂ := by
  induction l₁ with
  | nil => simp [countArr]
  | cons a t ih => simp [countArr, ih]; ring

lemma countPD_erase (l : List Event) (e : Event) (he : e ∈ l) (n : String) :
    countPD l n = countPD (l.erase e) n
      + (if e.queue = n ∧ e.kind ≠ .arrival then 1 else 0) := by
  induction l with
  | nil => simp at he
  | cons a t ih =>
      by_cases hae : a = e
      · subst hae
        rw [List.erase_cons_head]
        rw [countPD]
        ring
      · rw [List.erase_cons_tail (by simpa using hae)]
        have het : e ∈ t := by
          rcases List.mem_cons.mp he with h | h
          · exact absurd h.symm hae
          · exact h
        rw [countPD, countPD, ih het]
        ring

lemma countArr_erase (l : List Event) (e : Event) (he : e ∈ l) :
    countArr l = countArr (l.erase e) + (if e.kind = .arrival then 1 else 0) := by
  induction l with
  | nil => simp at he
  | cons a t ih =>
      by_cases hae : a = e
      · subst hae
        rw [List.erase_cons_head]
        rw [countArr]
        ring
      · rw [List.erase_cons_tail (by simpa using hae)]
        have het : e ∈ t := by
          rcases List.mem_cons.mp he with h | h
          · exact absurd h.symm hae
          · exact h
        rw [countArr, countArr, ih het]
        ring

/-- A minimal-time element of the schedule: what `heapq.heappop` hands
back (the stdlib contract "pop the smallest item", with equal-time
ties left unspecified). -/
def earliest (s : SimState) (e : Event) : Prop :=
  e ∈ s.schedule ∧ ∀ f ∈ s.schedule, e.time ≤ f.time

/-- The state right after `_pop_next_event` removed `e`. -/
def afterPop (s : SimState) (e : Event) : SimState :=
  { s with schedule := s.schedule.erase e }

/-- One `step()` of the Simulator as a relation: pop a minimal-time
event and dispatch on its kind.  For a PASSAGE, the value `x` that
the global `random()` returns inside `_get_destination` is
quantified over [0,1). -/
inductive Step : SimState → Event → SimState → Prop where
  | arrival {s e s'} : earliest s e → e.kind = .arrival →
      arrive (afterPop s e) e = some s' → Step s e s'
  | passage {s e s'} (x : ℚ) : earliest s e → e.kind = .passage →
      0 ≤ x → x < 1 →
      passEvt (afterPop s e) e x = some s' → Step s e s'
  | departure {s e s'} : earliest s e → e.kind = .departure →
      depart (afterPop s e) e = some s' → Step s e s'

/-- States reachable from `s₀` by repeated `step()` calls. -/
inductive Reachable (s₀ : SimState) : SimState → Prop where
  | refl : Reachable s₀ s₀
  | tail {s e s'} : Reachable s₀ s → Step s e s' → Reachable s₀ s'

/-- The per-field part of the engine invariant (everything except the
pending-event and arrival-event counts). -/
structure BaseInv (s : SimState) : Prop where
  keyName : ∀ n q, s.queues n = some q → q.name = n
  occ_nonneg : ∀ n q, s.queues n = some q → 0 ≤ q.in_queue
  occ_le_cap : ∀ n q, s.queues n = some q → q.in_queue ≤ q.max_queue_size
  srv_pos : ∀ n q, s.queues n = some q → 1 ≤ q.servers
  srv_le_cap : ∀ n q, s.queues n = some q → q.servers ≤ q.max_queue_size
  rg_lo : ∀ n q, s.queues n = some q → 0 ≤ q.departure_range.start
  rg_hi : ∀ n q, s.queues n = some q →
    q.departure_range.start ≤ q.departure_range.stop
  hist_len : ∀ n q, s.queues n = some q →
    q.times_per_size.length = (q.max_queue_size + 1).toNat
  hist_sum : ∀ n q, s.queues n = some q → q.times_per_size.sum = s.time
  future : ∀ f ∈ s.schedule, s.time ≤ f.time
  arr_lo : 0 ≤ s.arrival_range.start
  arr_hi : s.arrival_range.start ≤ s.arrival_range.stop
  rngOk : RNGValid s.random
  startOk : (s.queues s.start_queue).isSome = true

/-- The pending-service accounting: every queue has exactly
`min occupancy servers` PASSAGE/DEPARTURE events in flight. -/
def Pend (s : SimState) : Prop :=
  ∀ n q, s.queues n = some q →
    (countPD s.schedule n : ℤ) = min q.in_queue q.servers

/-- The full engine invariant: the per-field part, the pending-service
accounting, and exactly one ARRIVAL in flight. -/
def EngineInv (s : SimState) : Prop :=
  BaseInv s ∧ Pend s ∧ countArr s.schedule = 1

/-- The source-queue decrement done at the start of `_pass` and
`_depart` (proof scaffolding naming an intermediate state of the
handlers). -/
def passDec (s : SimState) (e : Event) (q0 : QState) : SimState :=
  updateQ (setTime s e.time) q0.name { q0 with in_queue := q0.in_queue - 1 }

/-- The state of `_pass` right before destination selection:
decrement, then reschedule the passer when clients are waiting. -/
def passMid (s : SimState) (e : Event) (q0 : QState) : SimState :=
  if q0.in_queue - 1 ≥ q0.servers
  then schedulePassage (passDec s e q0) { q0 with in_queue := q0.in_queue - 1 }
  else passDec s e q0

/-- The final state of `_depart`: decrement, then reschedule the queue
when clients are waiting. -/
def departMid (s : SimState) (e : Event) (q0 : QState) : SimState :=
  if q0.in_queue - 1 ≥ q0.servers
  then scheduleDeparture (passDec s e q0) { q0 with in_queue := q0.in_queue - 1 }
  else passDec s e q0

lemma passEvt_eq (s : SimState) (e : Event) (x : ℚ) (q0 : QState)
    (h : (setTime s e.time).queues e.queue = some q0) :
    passEvt s e x =
      match getDestination (passMid s e q0) { q0 with in_queue := q0.in_queue - 1 } x with
      | none => none
      | some d => some (tryAdmit (passMid s e q0) d) := by
  rw [passEvt]
  simp only [setTime_def] at h ⊢
  rw [h]
  rfl

lemma passEvt_none (s : SimState) (e : Event) (x : ℚ)
    (h : (setTime s e.time).queues e.queue = none) :
    passEvt s e x = none := by
  rw [passEvt]
  simp only [setTime_def] at h ⊢
  rw [h]

lemma depart_eq (s : SimState) (e : Event) (q0 : QState)
    (h : (setTime s e.time).queues e.queue = some q0) :
    depart s e = some (departMid s e q0) := by
  rw [depart]
  simp only [setTime_def] at h ⊢
  rw [h]
  rfl

lemma depart_none (s : SimState) (e : Event)
    (h : (setTime s e.time).queues e.queue = none) :
    depart s e = none := by
  rw [depart]
  simp only [setTime_def] at h ⊢
  rw [h]

/-!
## Preservation of the invariant by each primitive
-/

lemma drawRange_nonneg (r : ℚ) (rg : PyRange) (hr : 0 ≤ r)
    (h0 : 0 ≤ rg.start) (h1 : rg.start ≤ rg.stop) : 0 ≤ drawRange r rg := by
  have h2 : ((rg.start : ℤ) : ℚ) ≤ ((rg.stop : ℤ) : ℚ) := by exact_mod_cast h1
  have h3 : (0 : ℚ) ≤ ((rg.start : ℤ) : ℚ) := by exact_mod_cast h0
  have h4 : (0 : ℚ) ≤ r * (((rg.stop : ℤ) : ℚ) - ((rg.start : ℤ) : ℚ)) :=
    mul_nonneg hr (by linarith)
  unfold drawRange
  linarith

lemma countPD_single (e : Event) (n : String) :
    countPD [e] n = if e.queue = n ∧ e.kind ≠ .arrival then 1 else 0 := by
  simp [countPD]

lemma countArr_single (e : Event) :
    countArr [e] = if e.kind = .arrival then 1 else 0 := by
  simp [countArr]

/-- Characterize a lookup in an updated map. -/
lemma updateQ_lookup (s : SimState) (n : String) (q' : QState) (m : String) (q : QState)
    (h : (updateQ s n q').queues m = some q) :
    (m = n ∧ q = q') ∨ (¬ m = n ∧ s.queues m = some q) := by
  rw [updateQ_def] at h
  dsimp at h
  by_cases hmn : m = n
  · rw [if_pos hmn] at h
    exact Or.inl ⟨hmn, (Option.some.inj h).symm⟩
  · rw [if_neg hmn] at h
    exact Or.inr ⟨hmn, h⟩

lemma baseInv_updateQ (s : SimState) (n : String) (q' : QState) (hB : BaseInv s)
    (hname : q'.name = n)
    (hocc0 : 0 ≤ q'.in_queue) (hocc1 : q'.in_queue ≤ q'.max_queue_size)
    (hsrv : 1 ≤ q'.servers) (hsrvcap : q'.servers ≤ q'.max_queue_size)
    (hr0 : 0 ≤ q'.departure_range.start)
    (hr1 : q'.departure_range.start ≤ q'.departure_range.stop)
    (hlen : q'.times_per_size.length = (q'.max_queue_size + 1).toNat)
    (hsum : q'.times_per_size.sum = s.time) :
    BaseInv (updateQ s n q') := by
  refine ⟨?_, ?_, ?_, ?_, ?_, ?_, ?_, ?_, ?_, ?_, ?_, ?_, ?_, ?_⟩
  · intro m q h
    rcases updateQ_lookup s n q' m q h with ⟨rfl, rfl⟩ | ⟨_, h⟩
    · exact hname
    · exact hB.keyName _ _ h
  · intro m q h
    rcases updateQ_lookup s n q' m q h with ⟨rfl, rfl⟩ | ⟨_, h⟩
    · exact hocc0
    · exact hB.occ_nonneg _ _ h
  · intro m q h
    rcases updateQ_lookup s n q' m q h with ⟨rfl, rfl⟩ | ⟨_, h⟩
    · exact hocc1
    · exact hB.occ_le_cap _ _ h
  · intro m q h
    rcases updateQ_lookup s n q' m q h with ⟨rfl, rfl⟩ | ⟨_, h⟩
    · exact hsrv
    · exact hB.srv_pos _ _ h
  · intro m q h
    rcases updateQ_lookup s n q' m q h with ⟨rfl, rfl⟩ | ⟨_, h⟩
    · exact hsrvcap
    · exact hB.srv_le_cap _ _ h
  · intro m q h
    rcases updateQ_lookup s n q' m q h with ⟨rfl, rfl⟩ | ⟨_, h⟩
    · exact hr0
    · exact hB.rg_lo _ _ h
  · intro m q h
    rcases updateQ_lookup s n q' m q h with ⟨rfl, rfl⟩ | ⟨_, h⟩
    · exact hr1
    · exact hB.rg_hi _ _ h
  · intro m q h
    rcases updateQ_lookup s n q' m q h with ⟨rfl, rfl⟩ | ⟨_, h⟩
    · exact hlen
    · exact hB.hist_len _ _ h
  · intro m q h
    rcases updateQ_lookup s n q' m q h with ⟨rfl, rfl⟩ | ⟨_, h⟩
    · exact hsum
    · exact hB.hist_sum _ _ h
  · exact hB.future
  · exact hB.arr_lo
  · exact hB.arr_hi
  · exact hB.rngOk
  · rw [updateQ_def]
    dsimp
    by_cases hsn : s.start_queue = n
    · rw [if_pos hsn]
      rfl
    · rw [if_neg hsn]
      exact hB.startOk

lemma baseInv_schedulePassage (s : SimState) (q : QState) (hB : BaseInv s)
    (hr0 : 0 ≤ q.departure_range.start)
    (hr1 : q.departure_range.start ≤ q.departure_range.stop) :
    BaseInv (schedulePassage s q) := by
  rw [schedulePassage_def]
  obtain ⟨hgv, hr_lo, hr_hi⟩ := RNG.next_valid s.random hB.rngOk
  refine ⟨hB.keyName, hB.occ_nonneg, hB.occ_le_cap, hB.srv_pos, hB.srv_le_cap,
    hB.rg_lo, hB.rg_hi, hB.hist_len, hB.hist_sum, ?_, hB.arr_lo, hB.arr_hi, hgv, hB.startOk⟩
  intro f hf
  rcases List.mem_append.mp hf with hf | hf
  · exact hB.future f hf
  · rcases List.mem_singleton.mp hf with rfl
    dsimp
    have := drawRange_nonneg (s.random.next).2 q.departure_range hr_lo hr0 hr1
    linarith

lemma baseInv_scheduleDeparture (s : SimState) (q : QState) (hB : BaseInv s)
    (hr0 : 0 ≤ q.departure_range.start)
    (hr1 : q.departure_range.start ≤ q.departure_range.stop) :
    BaseInv (scheduleDeparture s q) := by
  rw [scheduleDeparture_def]
  obtain ⟨hgv, hr_lo, hr_hi⟩ := RNG.next_valid s.random hB.rngOk
  refine ⟨hB.keyName, hB.occ_nonneg, hB.occ_le_cap, hB.srv_pos, hB.srv_le_cap,
    hB.rg_lo, hB.rg_hi, hB.hist_len, hB.hist_sum, ?_, hB.arr_lo, hB.arr_hi, hgv, hB.startOk⟩
  intro f hf
  rcases List.mem_append.mp hf with hf | hf
  · exact hB.future f hf
  · rcases List.mem_singleton.mp hf with rfl
    dsimp
    have := drawRange_nonneg (s.random.next).2 q.departure_range hr_lo hr0 hr1
    linarith

lemma baseInv_scheduleArrival_none (s : SimState) (hB : BaseInv s) :
    BaseInv (scheduleArrival s none) := by
  rw [scheduleArrival_none_def]
  obtain ⟨hgv, hr_lo, hr_hi⟩ := RNG.next_valid s.random hB.rngOk
  refine ⟨hB.keyName, hB.occ_nonneg, hB.occ_le_cap, hB.srv_pos, hB.srv_le_cap,
    hB.rg_lo, hB.rg_hi, hB.hist_len, hB.hist_sum, ?_, hB.arr_lo, hB.arr_hi, hgv, hB.startOk⟩
  intro f hf
  rcases List.mem_append.mp hf with hf | hf
  · exact hB.future f hf
  · rcases List.mem_singleton.mp hf with rfl
    dsimp
    have := drawRange_nonneg (s.random.next).2 s.arrival_range hr_lo hB.arr_lo hB.arr_hi
    linarith

lemma baseInv_scheduleArrival_some (s : SimState) (t : ℚ) (hB : BaseInv s) (ht : 0 ≤ t) :
    BaseInv (scheduleArrival s (some t)) := by
  rw [scheduleArrival_some_def]
  refine ⟨hB.keyName, hB.occ_nonneg, hB.occ_le_cap, hB.srv_pos, hB.srv_le_cap,
    hB.rg_lo, hB.rg_hi, hB.hist_len, hB.hist_sum, ?_, hB.arr_lo, hB.arr_hi, hB.rngOk,
    hB.startOk⟩
  intro f hf
  rcases List.mem_append.mp hf with hf | hf
  · exact hB.future f hf
  · rcases List.mem_singleton.mp hf with rfl
    dsimp
    linarith

/-- The queue stored under `n` after a clock advance is the stored
queue with its histogram bumped at the current occupancy. -/
lemma setTime_lookup (s : SimState) (t : ℚ) (n : String) (q : QState)
    (h : (setTime s t).queues n = some q) :
    ∃ q0, s.queues n = some q0 ∧
      q = { q0 with times_per_size := bumpAt q0.times_per_size q0.in_queue (t - s.time) } := by
  rw [setTime_def] at h
  dsimp at h
  obtain ⟨q0, hq0, rfl⟩ := Option.map_eq_some'.mp h
  exact ⟨q0, hq0, rfl⟩

lemma bumpAt_length (l : List ℚ) (i : ℤ) (d : ℚ) :
    (bumpAt l i d).length = l.length := by
  rw [bumpAt, List.length_set]

/-- Bumping the histogram at a valid occupancy adds the delta to its
sum. -/
lemma bumpAt_sum (l : List ℚ) (i : ℤ) (d : ℚ) (h0 : 0 ≤ i)
    (hlt : i.toNat < l.length) :
    (bumpAt l i d).sum = l.sum + d := by
  rw [bumpAt]
  exact sum_bumpAt l i.toNat d hlt

lemma baseInv_pop_setTime (s : SimState) (e : Event) (hB : BaseInv s)
    (hmin : earliest s e) :
    BaseInv (setTime (afterPop s e) e.time) := by
  have hsched : (setTime (afterPop s e) e.time).schedule = s.schedule.erase e := rfl
  have htime : (setTime (afterPop s e) e.time).time = e.time := rfl
  have hlook : ∀ n q, (setTime (afterPop s e) e.time).queues n = some q →
      ∃ q0, s.queues n = some q0 ∧
        q = { q0 with
          times_per_size := bumpAt q0.times_per_size q0.in_queue (e.time - s.time) } := by
    intro n q h
    exact setTime_lookup (afterPop s e) e.time n q h
  refine ⟨?_, ?_, ?_, ?_, ?_, ?_, ?_, ?_, ?_, ?_, hB.arr_lo, hB.arr_hi, hB.rngOk, ?_⟩
  · intro n q h
    obtain ⟨q0, h0, rfl⟩ := hlook n q h
    exact hB.keyName n q0 h0
  · intro n q h
    obtain ⟨q0, h0, rfl⟩ := hlook n q h
    exact hB.occ_nonneg n q0 h0
  · intro n q h
    obtain ⟨q0, h0, rfl⟩ := hlook n q h
    exact hB.occ_le_cap n q0 h0
  · intro n q h
    obtain ⟨q0, h0, rfl⟩ := hlook n q h
    exact hB.srv_pos n q0 h0
  · intro n q h
    obtain ⟨q0, h0, rfl⟩ := hlook n q h
    exact hB.srv_le_cap n q0 h0
  · intro n q h
    obtain ⟨q0, h0, rfl⟩ := hlook n q h
    exact hB.rg_lo n q0 h0
  · intro n q h
    obtain ⟨q0, h0, rfl⟩ := hlook n q h
    exact hB.rg_hi n q0 h0
  · intro n q h
    obtain ⟨q0, h0, rfl⟩ := hlook n q h
    dsimp
    rw [bumpAt_length]
    exact hB.hist_len _ _ h0
  · intro n q h
    obtain ⟨q0, h0, rfl⟩ := hlook n q h
    dsimp
    have hocc0 := hB.occ_nonneg _ _ h0
    have hocc1 := hB.occ_le_cap _ _ h0
    have hsrv := hB.srv_pos _ _ h0
    have hcap := le_trans hsrv (hB.srv_le_cap _ _ h0)
    have hidx : q0.in_queue.toNat < q0.times_per_size.length := by
      rw [hB.hist_len _ _ h0]
      omega
    rw [bumpAt_sum _ _ _ hocc0 hidx, hB.hist_sum _ _ h0, htime]
    ring
  · intro f hf
    rw [hsched] at hf
    exact hmin.2 f (List.mem_of_mem_erase hf)
  · obtain ⟨q, hq⟩ := Option.isSome_iff_exists.mp hB.startOk
    rw [setTime_def]
    dsimp
    have hq' : (afterPop s e).queues (afterPop s e).start_queue = some q := hq
    rw [hq']
    rfl

/-!
## Pending-count bookkeeping through the primitives
-/

lemma min_add_one (i v : ℤ) :
    min (i + 1) v = min i v + (if i + 1 ≤ v then 1 else 0) := by
  split_ifs with h <;> omega

lemma min_sub_one (i v : ℤ) :
    min (i - 1) v = min i v - 1 + (if i - 1 ≥ v then 1 else 0) := by
  split_ifs with h <;> omega

lemma schedulePassage_schedule (s : SimState) (q : QState) :
    (schedulePassage s q).schedule = s.schedule ++
      [⟨s.time + drawRange (s.random.next).2 q.departure_range, .passage, q.name⟩] := by
  rw [schedulePassage_def]

lemma scheduleDeparture_schedule (s : SimState) (q : QState) :
    (scheduleDeparture s q).schedule = s.schedule ++
      [⟨s.time + drawRange (s.random.next).2 q.departure_range, .departure, q.name⟩] := by
  rw [scheduleDeparture_def]

lemma scheduleArrival_none_schedule (s : SimState) :
    (scheduleArrival s none).schedule = s.schedule ++
      [⟨s.time + drawRange (s.random.next).2 s.arrival_range, .arrival, s.start_queue⟩] := by
  rw [scheduleArrival_none_def]

lemma countPD_schedulePassage (s : SimState) (q : QState) (n : String) :
    countPD (schedulePassage s q).schedule n =
      countPD s.schedule n + (if q.name = n then 1 else 0) := by
  rw [schedulePassage_schedule, countPD_append, countPD_single]
  simp only [EventKind.passage.sizeOf_spec]
  congr 1
  split_ifs with h1 h2 h2 <;> first | rfl | (exfalso ; simp_all)

lemma countPD_scheduleDeparture (s : SimState) (q : QState) (n : String) :
    countPD (scheduleDeparture s q).schedule n =
      countPD s.schedule n + (if q.name = n then 1 else 0) := by
  rw [scheduleDeparture_schedule, countPD_append, countPD_single]
  congr 1
  split_ifs with h1 h2 h2 <;> first | rfl | (exfalso ; simp_all)

lemma countPD_scheduleArrival_none (s : SimState) (n : String) :
    countPD (scheduleArrival s none).schedule n = countPD s.schedule n := by
  rw [scheduleArrival_none_schedule, countPD_append, countPD_single]
  simp

lemma countPD_scheduleArrival_some (s : SimState) (t : ℚ) (n : String) :
    countPD (scheduleArrival s (some t)).schedule n = countPD s.schedule n := by
  rw [scheduleArrival_some_def]
  dsimp
  rw [countPD_append, countPD_single]
  simp

lemma countArr_schedulePassage (s : SimState) (q : QState) :
    countArr (schedulePassage s q).schedule = countArr s.schedule := by
  rw [schedulePassage_schedule, countArr_append, countArr_single]
  simp

lemma countArr_scheduleDeparture (s : SimState) (q : QState) :
    countArr (scheduleDeparture s q).schedule = countArr s.schedule := by
  rw [scheduleDeparture_schedule, countArr_append, countArr_single]
  simp

lemma countArr_scheduleArrival_none (s : SimState) :
    countArr (scheduleArrival s none).schedule = countArr s.schedule + 1 := by
  rw [scheduleArrival_none_schedule, countArr_append, countArr_single]
  simp

lemma countArr_scheduleArrival_some (s : SimState) (t : ℚ) :
    countArr (scheduleArrival s (some t)).schedule = countArr s.schedule + 1 := by
  rw [scheduleArrival_some_def]
  dsimp
  rw [countArr_append, countArr_single]
  simp

lemma updateQ_schedule (s : SimState) (n : String) (q : QState) :
    (updateQ s n q).schedule = s.schedule := rfl

/-- `tryAdmit` preserves the invariant bundle: the target queue's
occupancy rises by one exactly when it is admitted, and a service
event is pushed exactly when the new occupancy is within the server
count, keeping `countPD = min occupancy servers` for every queue. -/
lemma tryAdmit_invs (t : SimState) (d : QState) (hB : BaseInv t) (hP : Pend t)
    (hd : t.queues d.name = some d) :
    BaseInv (tryAdmit t d) ∧ Pend (tryAdmit t d) ∧
      countArr (tryAdmit t d).schedule = countArr t.schedule := by
  have hocc0 := hB.occ_nonneg _ _ hd
  have hocc1 := hB.occ_le_cap _ _ hd
  have hsrv := hB.srv_pos _ _ hd
  have hsrvcap := hB.srv_le_cap _ _ hd
  have hr0 := hB.rg_lo _ _ hd
  have hr1 := hB.rg_hi _ _ hd
  have hlen := hB.hist_len _ _ hd
  have hsum := hB.hist_sum _ _ hd
  have hpd := hP _ _ hd
  by_cases hf : d.is_full
  · rw [tryAdmit_full t d hf]
    refine ⟨baseInv_updateQ t d.name _ hB rfl hocc0 hocc1 hsrv hsrvcap hr0 hr1 hlen hsum,
      ?_, rfl⟩
    intro n q h
    rcases updateQ_lookup _ _ _ _ _ h with ⟨rfl, rfl⟩ | ⟨_, h⟩
    · exact hpd
    · exact hP _ _ h
  · have hlt : d.in_queue < d.max_queue_size := by
      by_contra hge
      exact hf (le_of_not_lt hge)
    have hocc0' : (0 : ℤ) ≤ ({ d with in_queue := d.in_queue + 1 } : QState).in_queue := by
      show (0 : ℤ) ≤ d.in_queue + 1
      omega
    have hocc1' : ({ d with in_queue := d.in_queue + 1 } : QState).in_queue
        ≤ ({ d with in_queue := d.in_queue + 1 } : QState).max_queue_size := by
      show d.in_queue + 1 ≤ d.max_queue_size
      omega
    by_cases hs : d.in_queue + 1 ≤ d.servers
    · -- a server picks the client up: a service event is pushed
      have hmin : min d.in_queue d.servers = d.in_queue := min_eq_left (by omega)
      have hmin' : min (d.in_queue + 1) d.servers = d.in_queue + 1 := min_eq_left hs
      have hupd : BaseInv (updateQ t d.name { d with in_queue := d.in_queue + 1 }) :=
        baseInv_updateQ t d.name _ hB rfl hocc0' hocc1' hsrv hsrvcap hr0 hr1 hlen hsum
      have hPmid : ∀ n q,
          (updateQ t d.name { d with in_queue := d.in_queue + 1 }).queues n = some q →
          (countPD t.schedule n : ℤ) + (if d.name = n then 1 else 0)
            = min q.in_queue q.servers := by
        intro n q h
        rcases updateQ_lookup _ _ _ _ _ h with ⟨rfl, rfl⟩ | ⟨hne, h⟩
        · rw [if_pos rfl]
          dsimp
          rw [hmin', hpd, hmin]
        · rw [if_neg (fun hdn => hne hdn.symm), add_zero]
          exact hP _ _ h
      by_cases he : d.is_end
      · rw [tryAdmit_serve_end t d hf hs he]
        refine ⟨baseInv_scheduleDeparture _ _ hupd hr0 hr1, ?_, ?_⟩
        · intro n q h
          have h' : (updateQ t d.name { d with in_queue := d.in_queue + 1 }).queues n
              = some q := h
          have hgoal := hPmid n q h'
          rw [countPD_scheduleDeparture, updateQ_schedule]
          dsimp
          push_cast
          push_cast at hgoal
          exact hgoal
        · rw [countArr_scheduleDeparture]
          rfl
      · rw [tryAdmit_serve_mid t d hf hs he]
        refine ⟨baseInv_schedulePassage _ _ hupd hr0 hr1, ?_, ?_⟩
        · intro n q h
          have h' : (updateQ t d.name { d with in_queue := d.in_queue + 1 }).queues n
              = some q := h
          have hgoal := hPmid n q h'
          rw [countPD_schedulePassage, updateQ_schedule]
          dsimp
          push_cast
          push_cast at hgoal
          exact hgoal
        · rw [countArr_schedulePassage]
          rfl
    · -- all servers busy: the client waits, no event is pushed
      have hmin : min d.in_queue d.servers = d.servers := min_eq_right (by omega)
      have hmin' : min (d.in_queue + 1) d.servers = d.servers := min_eq_right (by omega)
      rw [tryAdmit_wait t d hf hs]
      refine ⟨baseInv_updateQ t d.name _ hB rfl hocc0' hocc1' hsrv hsrvcap hr0 hr1
        hlen hsum, ?_, rfl⟩
      intro n q h
      rcases updateQ_lookup _ _ _ _ _ h with ⟨rfl, rfl⟩ | ⟨_, h⟩
      · rw [updateQ_schedule]
        dsimp
        rw [hmin', hpd, hmin]
      · rw [updateQ_schedule]
        exact hP _ _ h

lemma scheduleArrival_none_queues (s : SimState) :
    (scheduleArrival s none).queues = s.queues := by
  rw [scheduleArrival_none_def]

lemma scheduleArrival_none_time (s : SimState) :
    (scheduleArrival s none).time = s.time := by
  rw [scheduleArrival_none_def]

lemma schedulePassage_queues (s : SimState) (q : QState) :
    (schedulePassage s q).queues = s.queues := by
  rw [schedulePassage_def]

lemma schedulePassage_time (s : SimState) (q : QState) :
    (schedulePassage s q).time = s.time := by
  rw [schedulePassage_def]

lemma scheduleDeparture_queues (s : SimState) (q : QState) :
    (scheduleDeparture s q).queues = s.queues := by
  rw [scheduleDeparture_def]

lemma scheduleDeparture_time (s : SimState) (q : QState) :
    (scheduleDeparture s q).time = s.time := by
  rw [scheduleDeparture_def]

lemma updateQ_time (s : SimState) (n : String) (q : QState) :
    (updateQ s n q).time = s.time := rfl

lemma tryAdmit_time (s : SimState) (d : QState) :
    (tryAdmit s d).time = s.time := by
  by_cases hf : d.is_full
  · rw [tryAdmit_full s d hf]
    rfl
  · by_cases hs : d.in_queue + 1 ≤ d.servers
    · by_cases he : d.is_end
      · rw [tryAdmit_serve_end s d hf hs he, scheduleDeparture_time, updateQ_time]
      · rw [tryAdmit_serve_mid s d hf hs he, schedulePassage_time, updateQ_time]
    · rw [tryAdmit_wait s d hf hs]
      rfl

lemma step_arrival_inv (s : SimState) (e : Event) (s' : SimState)
    (hI : EngineInv s) (hmin : earliest s e)
    (hk : e.kind = .arrival) (hstep : arrive (afterPop s e) e = some s') :
    EngineInv s' := by
  obtain ⟨hB, hP, hA⟩ := hI
  have hB1 : BaseInv (setTime (afterPop s e) e.time) := baseInv_pop_setTime s e hB hmin
  have hsched1 : (setTime (afterPop s e) e.time).schedule = s.schedule.erase e := rfl
  have hP1 : Pend (setTime (afterPop s e) e.time) := by
    intro n q h
    obtain ⟨q0, h0, rfl⟩ := setTime_lookup _ _ _ _ h
    have h0' : s.queues n = some q0 := h0
    have hcnt : countPD (s.schedule.erase e) n = countPD s.schedule n := by
      have herase := countPD_erase s.schedule e hmin.1 n
      rw [if_neg (by simp [hk])] at herase
      omega
    rw [hsched1, hcnt]
    dsimp
    exact hP _ _ h0'
  have hA1 : countArr (setTime (afterPop s e) e.time).schedule = 0 := by
    have herase := countArr_erase s.schedule e hmin.1
    rw [if_pos hk] at herase
    rw [hsched1]
    omega
  obtain ⟨sq, hsq⟩ := Option.isSome_iff_exists.mp hB1.startOk
  have hsq' : (setTime (afterPop s e) e.time).queues (afterPop s e).start_queue
      = some sq := hsq
  rw [arrive_eq (afterPop s e) e sq hsq'] at hstep
  have hname : sq.name = (setTime (afterPop s e) e.time).start_queue :=
    hB1.keyName _ _ hsq
  have hdlook : (setTime (afterPop s e) e.time).queues sq.name = some sq := by
    rw [hname]
    exact hsq
  obtain ⟨hB2, hP2, hA2⟩ := tryAdmit_invs (setTime (afterPop s e) e.time) sq hB1 hP1 hdlook
  have hs' : s' = scheduleArrival (tryAdmit (setTime (afterPop s e) e.time) sq) none :=
    (Option.some.inj hstep).symm
  subst hs'
  refine ⟨baseInv_scheduleArrival_none _ hB2, ?_, ?_⟩
  · intro n q h
    rw [scheduleArrival_none_queues] at h
    rw [countPD_scheduleArrival_none]
    exact hP2 n q h
  · rw [countArr_scheduleArrival_none, hA2, hA1]

lemma getDestination_some (s : SimState) (q : QState) (x : ℚ) (d : QState)
    (h : getDestination s q x = some d) :
    ∃ c, chooseDest q.out x = some c ∧ s.queues c = some d := by
  rw [getDestination] at h
  rcases hc : chooseDest q.out x with _ | c
  · rw [hc] at h
    exact absurd h (by simp)
  · rw [hc] at h
    exact ⟨c, rfl, h⟩

lemma step_passage_inv (s : SimState) (e : Event) (s' : SimState) (x : ℚ)
    (hI : EngineInv s) (hmin : earliest s e)
    (hk : e.kind = .passage) (hstep : passEvt (afterPop s e) e x = some s') :
    EngineInv s' := by
  obtain ⟨hB, hP, hA⟩ := hI
  have hB1 : BaseInv (setTime (afterPop s e) e.time) := baseInv_pop_setTime s e hB hmin
  have hsched1 : (setTime (afterPop s e) e.time).schedule = s.schedule.erase e := rfl
  rcases hq : (setTime (afterPop s e) e.time).queues e.queue with _ | q0
  · rw [passEvt_none (afterPop s e) e x hq] at hstep
    exact absurd hstep (by simp)
  have hkey : q0.name = e.queue := hB1.keyName _ _ hq
  obtain ⟨qb, hqb, hq0b⟩ := setTime_lookup _ _ _ _ hq
  have hqb' : s.queues e.queue = some qb := hqb
  have hin_eq : q0.in_queue = qb.in_queue := by rw [hq0b]
  have hsrv_eq : q0.servers = qb.servers := by rw [hq0b]
  have hcnt1 : (countPD (s.schedule.erase e) e.queue : ℤ)
      = min q0.in_queue q0.servers - 1 := by
    have herase := countPD_erase s.schedule e hmin.1 e.queue
    rw [if_pos ⟨rfl, by simp [hk]⟩] at herase
    have hpdq := hP _ _ hqb'
    rw [hin_eq, hsrv_eq]
    omega
  have hpos : 1 ≤ min q0.in_queue q0.servers := by
    have h0 : (0 : ℤ) ≤ (countPD (s.schedule.erase e) e.queue : ℤ) := Int.natCast_nonneg _
    omega
  have hocc1 := hB1.occ_le_cap _ _ hq
  have hsrv := hB1.srv_pos _ _ hq
  have hsrvcap := hB1.srv_le_cap _ _ hq
  have hr0 := hB1.rg_lo _ _ hq
  have hr1 := hB1.rg_hi _ _ hq
  have hlen := hB1.hist_len _ _ hq
  have hsum := hB1.hist_sum _ _ hq
  -- the decremented passer
  have hocc0' : (0 : ℤ) ≤ ({ q0 with in_queue := q0.in_queue - 1 } : QState).in_queue := by
    show (0 : ℤ) ≤ q0.in_queue - 1
    omega
  have hocc1' : ({ q0 with in_queue := q0.in_queue - 1 } : QState).in_queue
      ≤ ({ q0 with in_queue := q0.in_queue - 1 } : QState).max_queue_size := by
    show q0.in_queue - 1 ≤ q0.max_queue_size
    omega
  have hB2 : BaseInv (passDec (afterPop s e) e q0) := by
    rw [passDec]
    exact baseInv_updateQ _ q0.name _ hB1 rfl hocc0' hocc1' hsrv hsrvcap hr0 hr1 hlen hsum
  have hsched2 : (passDec (afterPop s e) e q0).schedule = s.schedule.erase e := rfl
  have hA1 : countArr (s.schedule.erase e) = 1 := by
    have herase := countArr_erase s.schedule e hmin.1
    rw [if_neg (by simp [hk])] at herase
    omega
  -- invariants at the mid state (after the conditional reschedule)
  have hmid : BaseInv (passMid (afterPop s e) e q0) ∧ Pend (passMid (afterPop s e) e q0) ∧
      countArr (passMid (afterPop s e) e q0).schedule = 1 := by
    rw [passMid]
    by_cases hcond : q0.in_queue - 1 ≥ q0.servers
    · rw [if_pos hcond]
      refine ⟨baseInv_schedulePassage _ _ hB2 hr0 hr1, ?_, ?_⟩
      · intro n q h
        rw [schedulePassage_queues] at h
        rw [countPD_schedulePassage, hsched2]
        rcases updateQ_lookup _ _ _ _ _ h with ⟨rfl, rfl⟩ | ⟨hne, h⟩
        · have hnm : ({ q0 with in_queue := q0.in_queue - 1 } : QState).name = q0.name := rfl
          rw [hnm, if_pos rfl]
          show (countPD (s.schedule.erase e) q0.name : ℤ) + 1
            = min (q0.in_queue - 1) q0.servers
          rw [hkey]
          push_cast at hcnt1
          omega
        · have hne' : ¬ ({ q0 with in_queue := q0.in_queue - 1 } : QState).name = n :=
            fun hc => hne hc.symm
          rw [if_neg hne', add_zero]
          -- n is untouched: its stored queue and count are those of s₁
          have hcnt : countPD (s.schedule.erase e) n = countPD s.schedule n := by
            have herase := countPD_erase s.schedule e hmin.1 n
            have : ¬ (e.queue = n ∧ e.kind ≠ EventKind.arrival) := by
              intro hcontra
              apply hne
              rw [hkey]
              exact hcontra.1.symm
            rw [if_neg this] at herase
            omega
          obtain ⟨q1, hq1, rfl⟩ := setTime_lookup _ _ _ _ h
          have hq1' : s.queues n = some q1 := hq1
          rw [hcnt]
          dsimp
          exact hP _ _ hq1'
      · rw [countArr_schedulePassage, hsched2, hA1]
    · rw [if_neg hcond]
      refine ⟨hB2, ?_, by rw [hsched2, hA1]⟩
      intro n q h
      rw [hsched2]
      rcases updateQ_lookup _ _ _ _ _ h with ⟨rfl, rfl⟩ | ⟨hne, h⟩
      · show (countPD (s.schedule.erase e) q0.name : ℤ) = min (q0.in_queue - 1) q0.servers
        rw [hkey]
        push_cast at hcnt1
        omega
      · have hcnt : countPD (s.schedule.erase e) n = countPD s.schedule n := by
          have herase := countPD_erase s.schedule e hmin.1 n
          have : ¬ (e.queue = n ∧ e.kind ≠ EventKind.arrival) := by
            intro hcontra
            apply hne
            rw [hkey]
            exact hcontra.1.symm
          rw [if_neg this] at herase
          omega
        obtain ⟨q1, hq1, rfl⟩ := setTime_lookup _ _ _ _ h
        have hq1' : s.queues n = some q1 := hq1
        rw [hcnt]
        dsimp
        exact hP _ _ hq1'
  obtain ⟨hBm, hPm, hAm⟩ := hmid
  rw [passEvt_eq (afterPop s e) e x q0 hq] at hstep
  rcases hd : getDestination (passMid (afterPop s e) e q0)
      { q0 with in_queue := q0.in_queue - 1 } x with _ | d
  · rw [hd] at hstep
    exact absurd hstep (by simp)
  · rw [hd] at hstep
    obtain ⟨c, _, hcd⟩ := getDestination_some _ _ _ _ hd
    have hdname : d.name = c := hBm.keyName _ _ hcd
    have hdlook : (passMid (afterPop s e) e q0).queues d.name = some d := by
      rw [hdname]
      exact hcd
    obtain ⟨hB3, hP3, hA3⟩ := tryAdmit_invs _ d hBm hPm hdlook
    have hs' : s' = tryAdmit (passMid (afterPop s e) e q0) d :=
      (Option.some.inj hstep).symm
    subst hs'
    exact ⟨hB3, hP3, by rw [hA3, hAm]⟩

lemma step_departure_inv (s : SimState) (e : Event) (s' : SimState)
    (hI : EngineInv s) (hmin : earliest s e)
    (hk : e.kind = .departure) (hstep : depart (afterPop s e) e = some s') :
    EngineInv s' := by
  obtain ⟨hB, hP, hA⟩ := hI
  have hB1 : BaseInv (setTime (afterPop s e) e.time) := baseInv_pop_setTime s e hB hmin
  have hsched1 : (setTime (afterPop s e) e.time).schedule = s.schedule.erase e := rfl
  rcases hq : (setTime (afterPop s e) e.time).queues e.queue with _ | q0
  · rw [depart_none (afterPop s e) e hq] at hstep
    exact absurd hstep (by simp)
  have hkey : q0.name = e.queue := hB1.keyName _ _ hq
  obtain ⟨qb, hqb, hq0b⟩ := setTime_lookup _ _ _ _ hq
  have hqb' : s.queues e.queue = some qb := hqb
  have hin_eq : q0.in_queue = qb.in_queue := by rw [hq0b]
  have hsrv_eq : q0.servers = qb.servers := by rw [hq0b]
  have hcnt1 : (countPD (s.schedule.erase e) e.queue : ℤ)
      = min q0.in_queue q0.servers - 1 := by
    have herase := countPD_erase s.schedule e hmin.1 e.queue
    rw [if_pos ⟨rfl, by simp [hk]⟩] at herase
    have hpdq := hP _ _ hqb'
    rw [hin_eq, hsrv_eq]
    omega
  have hpos : 1 ≤ min q0.in_queue q0.servers := by
    have h0 : (0 : ℤ) ≤ (countPD (s.schedule.erase e) e.queue : ℤ) := Int.natCast_nonneg _
    omega
  have hocc1 := hB1.occ_le_cap _ _ hq
  have hsrv := hB1.srv_pos _ _ hq
  have hsrvcap := hB1.srv_le_cap _ _ hq
  have hr0 := hB1.rg_lo _ _ hq
  have hr1 := hB1.rg_hi _ _ hq
  have hlen := hB1.hist_len _ _ hq
  have hsum := hB1.hist_sum _ _ hq
  have hocc0' : (0 : ℤ) ≤ ({ q0 with in_queue := q0.in_queue - 1 } : QState).in_queue := by
    show (0 : ℤ) ≤ q0.in_queue - 1
    omega
  have hocc1' : ({ q0 with in_queue := q0.in_queue - 1 } : QState).in_queue
      ≤ ({ q0 with in_queue := q0.in_queue - 1 } : QState).max_queue_size := by
    show q0.in_queue - 1 ≤ q0.max_queue_size
    omega
  have hB2 : BaseInv (passDec (afterPop s e) e q0) := by
    rw [passDec]
    exact baseInv_updateQ _ q0.name _ hB1 rfl hocc0' hocc1' hsrv hsrvcap hr0 hr1 hlen hsum
  have hsched2 : (passDec (afterPop s e) e q0).schedule = s.schedule.erase e := rfl
  have hA1 : countArr (s.schedule.erase e) = 1 := by
    have herase := countArr_erase s.schedule e hmin.1
    rw [if_neg (by simp [hk])] at herase
    omega
  have hs' : s' = departMid (afterPop s e) e q0 :=
    (Option.some.inj ((depart_eq (afterPop s e) e q0 hq).symm.trans hstep)).symm
  subst hs'
  rw [departMid]
  by_cases hcond : q0.in_queue - 1 ≥ q0.servers
  · rw [if_pos hcond]
    refine ⟨baseInv_scheduleDeparture _ _ hB2 hr0 hr1, ?_, ?_⟩
    · intro n q h
      rw [scheduleDeparture_queues] at h
      rw [countPD_scheduleDeparture, hsched2]
      rcases updateQ_lookup _ _ _ _ _ h with ⟨rfl, rfl⟩ | ⟨hne, h⟩
      · have hnm : ({ q0 with in_queue := q0.in_queue - 1 } : QState).name = q0.name := rfl
        rw [hnm, if_pos rfl]
        show (countPD (s.schedule.erase e) q0.name : ℤ) + 1
          = min (q0.in_queue - 1) q0.servers
        rw [hkey]
        push_cast at hcnt1
        omega
      · have hne' : ¬ ({ q0 with in_queue := q0.in_queue - 1 } : QState).name = n :=
          fun hc => hne hc.symm
        rw [if_neg hne', add_zero]
        have hcnt : countPD (s.schedule.erase e) n = countPD s.schedule n := by
          have herase := countPD_erase s.schedule e hmin.1 n
          have : ¬ (e.queue = n ∧ e.kind ≠ EventKind.arrival) := by
            intro hcontra
            apply hne
            rw [hkey]
            exact hcontra.1.symm
          rw [if_neg this] at herase
          omega
        obtain ⟨q1, hq1, rfl⟩ := setTime_lookup _ _ _ _ h
        have hq1' : s.queues n = some q1 := hq1
        rw [hcnt]
        dsimp
        exact hP _ _ hq1'
    · rw [countArr_scheduleDeparture, hsched2, hA1]
  · rw [if_neg hcond]
    refine ⟨hB2, ?_, by rw [hsched2, hA1]⟩
    intro n q h
    rw [hsched2]
    rcases updateQ_lookup _ _ _ _ _ h with ⟨rfl, rfl⟩ | ⟨hne, h⟩
    · show (countPD (s.schedule.erase e) q0.name : ℤ) = min (q0.in_queue - 1) q0.servers
      rw [hkey]
      push_cast at hcnt1
      omega
    · have hcnt : countPD (s.schedule.erase e) n = countPD s.schedule n := by
        have herase := countPD_erase s.schedule e hmin.1 n
        have : ¬ (e.queue = n ∧ e.kind ≠ EventKind.arrival) := by
          intro hcontra
          apply hne
          rw [hkey]
          exact hcontra.1.symm
        rw [if_neg this] at herase
        omega
      obtain ⟨q1, hq1, rfl⟩ := setTime_lookup _ _ _ _ h
      have hq1' : s.queues n = some q1 := hq1
      rw [hcnt]
      dsimp
      exact hP _ _ hq1'

/-- One engine step preserves the invariant. -/
lemma step_engineInv {s : SimState} {e : Event} {s' : SimState}
    (hI : EngineInv s) (hs : Step s e s') : EngineInv s' := by
  cases hs with
  | arrival hmin hk hstep => exact step_arrival_inv _ _ _ hI hmin hk hstep
  | passage x hmin hk _ _ hstep => exact step_passage_inv _ _ _ x hI hmin hk hstep
  | departure hmin hk hstep => exact step_departure_inv _ _ _ hI hmin hk hstep

/-- The invariant holds at every reachable state. -/
lemma reachable_engineInv {s₀ s : SimState} (h0 : EngineInv s₀)
    (hr : Reachable s₀ s) : EngineInv s := by
  induction hr with
  | refl => exact h0
  | tail _ hs ih => exact step_engineInv ih hs

/-!
## The invariant at the start state, and the clock behaviour of a step
-/

/-- A queue as a validated configuration delivers it: fresh counters,
at least one server, capacity at least the server count, a sane
service range, and a zeroed histogram of the right length. -/
def ValidQueue (q : QState) : Prop :=
  1 ≤ q.servers ∧ q.servers ≤ q.max_queue_size ∧
  0 ≤ q.departure_range.start ∧ q.departure_range.start ≤ q.departure_range.stop ∧
  q.in_queue = 0 ∧
  q.times_per_size = List.replicate (q.max_queue_size + 1).toNat 0 ∧
  q.events_lost = 0

instance (q : QState) : Decidable (ValidQueue q) := by
  unfold ValidQueue
  infer_instance

lemma initSim_lookup (qs : List QState) (startq : String) (arr : PyRange) (g : RNG)
    (n : String) (q : QState) (h : (initSim qs startq arr g).queues n = some q) :
    q ∈ qs ∧ q.name = n := by
  have key : ∀ (l : List QState) (f : String → Option QState),
      (l.foldl (fun f c => fun n => if n = c.name then some c else f n) f) n = some q →
      (q ∈ l ∧ q.name = n) ∨ f n = some q := by
    intro l
    induction l with
    | nil => intro f h; exact Or.inr h
    | cons c t ih =>
        intro f h
        rcases ih _ h with ⟨hm, hn⟩ | h
        · exact Or.inl ⟨List.mem_cons_of_mem _ hm, hn⟩
        · dsimp at h
          by_cases hnc : n = c.name
          · rw [if_pos hnc] at h
            exact Or.inl ⟨by rw [← Option.some.inj h]; exact List.mem_cons_self c t,
              by rw [← Option.some.inj h, hnc]⟩
          · rw [if_neg hnc] at h
            exact Or.inr h
  rcases key qs _ h with hq | hq
  · exact hq
  · exact absurd hq (by simp [initSim])

/-- The first-arrival state of a validated configuration satisfies the
engine invariant. -/
lemma startSim_engineInv (qs : List QState) (startq : String) (arr : PyRange)
    (g : RNG) (t? : Option ℚ)
    (hq : ∀ q ∈ qs, ValidQueue q)
    (harr0 : 0 ≤ arr.start) (harr1 : arr.start ≤ arr.stop) (hg : RNGValid g)
    (hstart : ((initSim qs startq arr g).queues startq).isSome = true)
    (ht : ∀ t ∈ t?, 0 ≤ t) :
    EngineInv (startSim (initSim qs startq arr g) t?) := by
  have hB0 : BaseInv (initSim qs startq arr g) := by
    refine ⟨?_, ?_, ?_, ?_, ?_, ?_, ?_, ?_, ?_, ?_, harr0, harr1, hg, hstart⟩
    · intro n q h
      exact (initSim_lookup qs startq arr g n q h).2
    · intro n q h
      obtain ⟨hm, _⟩ := initSim_lookup qs startq arr g n q h
      rw [(hq q hm).2.2.2.2.1]
    · intro n q h
      obtain ⟨hm, _⟩ := initSim_lookup qs startq arr g n q h
      obtain ⟨h1, h2, _⟩ := hq q hm
      have h0 : q.in_queue = 0 := (hq q hm).2.2.2.2.1
      omega
    · intro n q h
      exact ((hq q (initSim_lookup qs startq arr g n q h).1)).1
    · intro n q h
      exact ((hq q (initSim_lookup qs startq arr g n q h).1)).2.1
    · intro n q h
      exact ((hq q (initSim_lookup qs startq arr g n q h).1)).2.2.1
    · intro n q h
      exact ((hq q (initSim_lookup qs startq arr g n q h).1)).2.2.2.1
    · intro n q h
      rw [((hq q (initSim_lookup qs startq arr g n q h).1)).2.2.2.2.2.1]
      exact List.length_replicate _ _
    · intro n q h
      rw [((hq q (initSim_lookup qs startq arr g n q h).1)).2.2.2.2.2.1]
      simp [initSim]
    · intro f hf
      exact absurd hf (by simp [initSim])
  constructor
  · cases t? with
    | none => exact baseInv_scheduleArrival_none _ hB0
    | some t => exact baseInv_scheduleArrival_some _ t hB0 (ht t rfl)
  constructor
  · intro n q h
    have hq' : (initSim qs startq arr g).queues n = some q := by
      cases t? with
      | none =>
          rw [startSim, scheduleArrival_none_queues] at h
          exact h
      | some t =>
          rw [startSim, scheduleArrival_some_def] at h
          exact h
    have hcnt : countPD (startSim (initSim qs startq arr g) t?).schedule n = 0 := by
      cases t? with
      | none => rw [startSim, countPD_scheduleArrival_none]; rfl
      | some t => rw [startSim, countPD_scheduleArrival_some]; rfl
    rw [hcnt]
    obtain ⟨hm, _⟩ := initSim_lookup qs startq arr g n q hq'
    have h0 : q.in_queue = 0 := (hq q hm).2.2.2.2.1
    have h1 : 1 ≤ q.servers := (hq q hm).1
    rw [h0]
    omega
  · cases t? with
    | none => rw [startSim, countArr_scheduleArrival_none]; rfl
    | some t => rw [startSim, countArr_scheduleArrival_some]; rfl

lemma passDec_time (s : SimState) (e : Event) (q0 : QState) :
    (passDec s e q0).time = e.time := rfl

lemma passMid_time (s : SimState) (e : Event) (q0 : QState) :
    (passMid s e q0).time = e.time := by
  rw [passMid]
  split_ifs with h
  · rw [schedulePassage_time, passDec_time]
  · rw [passDec_time]

lemma departMid_time (s : SimState) (e : Event) (q0 : QState) :
    (departMid s e q0).time = e.time := by
  rw [departMid]
  split_ifs with h
  · rw [scheduleDeparture_time, passDec_time]
  · rw [passDec_time]

/-- Every step sets the clock to the popped event's time. -/
lemma step_time {s : SimState} {e : Event} {s' : SimState} (hs : Step s e s') :
    s'.time = e.time := by
  cases hs with
  | arrival hmin hk hstep =>
      rcases hq : (setTime (afterPop s e) e.time).queues (afterPop s e).start_queue
          with _ | sq
      · rw [arrive_none (afterPop s e) e hq] at hstep
        exact absurd hstep (by simp)
      · rw [arrive_eq (afterPop s e) e sq hq] at hstep
        rw [← Option.some.inj hstep]
        rw [scheduleArrival_none_time, tryAdmit_time]
        rfl
  | passage x hmin hk _ _ hstep =>
      rcases hq : (setTime (afterPop s e) e.time).queues e.queue with _ | q0
      · rw [passEvt_none (afterPop s e) e x hq] at hstep
        exact absurd hstep (by simp)
      · rw [passEvt_eq (afterPop s e) e x q0 hq] at hstep
        rcases hd : getDestination (passMid (afterPop s e) e q0)
            { q0 with in_queue := q0.in_queue - 1 } x with _ | d
        · rw [hd] at hstep
          exact absurd hstep (by simp)
        · rw [hd] at hstep
          rw [← Option.some.inj hstep]
          rw [tryAdmit_time, passMid_time]
  | departure hmin hk hstep =>
      rcases hq : (setTime (afterPop s e) e.time).queues e.queue with _ | q0
      · rw [depart_none (afterPop s e) e hq] at hstep
        exact absurd hstep (by simp)
      · rw [depart_eq (afterPop s e) e q0 hq] at hstep
        rw [← Option.some.inj hstep]
        rw [departMid_time]

lemma startSim_time (qs : List QState) (startq : String) (arr : PyRange) (g : RNG)
    (t? : Option ℚ) : (startSim (initSim qs startq arr g) t?).time = 0 := by
  cases t? with
  | none =>
      rw [startSim, scheduleArrival_none_time]
      rfl
  | some t => rfl

lemma step_earliest {s : SimState} {e : Event} {s' : SimState} (hs : Step s e s') :
    earliest s e := by
  cases hs with
  | arrival hmin _ _ => exact hmin
  | passage x hmin _ _ _ _ => exact hmin
  | departure hmin _ _ => exact hmin

lemma countArr_pos_mem (l : List Event) (h : 0 < countArr l) :
    ∃ f ∈ l, f.kind = EventKind.arrival := by
  induction l with
  | nil => simp [countArr] at h
  | cons a t ih =>
      rw [countArr] at h
      by_cases ha : a.kind = EventKind.arrival
      · exact ⟨a, List.mem_cons_self a t, ha⟩
      · rw [if_neg ha] at h
        obtain ⟨f, hf, hfk⟩ := ih (by omega)
        exact ⟨f, List.mem_cons_of_mem _ hf, hfk⟩

lemma findEarliest_isSome (l : List Event) (h : l ≠ []) :
    (findEarliest l).isSome = true := by
  cases l with
  | nil => exact absurd rfl h
  | cons a t =>
      rw [findEarliest]
      rcases findEarliest t with _ | f
      · rfl
      · dsimp
        split_ifs <;> rfl

/-!
## C3, C4, C6, C7: the reachable-state theorems
-/

/-- C3: in every state reachable from a validated configuration
(servers ≥ 1 and capacity ≥ servers for every queue), every queue's
occupancy stays within `[0, capacity]`: every popped PASSAGE or
DEPARTURE matches a client in service (the pending-event accounting),
so the decrement never drives occupancy negative, and every increment
is guarded by the `is_full` check. -/
theorem occupancy_in_bounds (qs : List QState) (startq : String) (arr : PyRange)
    (g : RNG) (t? : Option ℚ) (s : SimState)
    (hq : ∀ q ∈ qs, ValidQueue q)
    (harr0 : 0 ≤ arr.start) (harr1 : arr.start ≤ arr.stop) (hg : RNGValid g)
    (hstart : ((initSim qs startq arr g).queues startq).isSome = true)
    (ht : ∀ t ∈ t?, 0 ≤ t)
    (hreach : Reachable (startSim (initSim qs startq arr g) t?) s) :
    ∀ n q, s.queues n = some q → 0 ≤ q.in_queue ∧ q.in_queue ≤ q.max_queue_size := by
  have hI := reachable_engineInv
    (startSim_engineInv qs startq arr g t? hq harr0 harr1 hg hstart ht) hreach
  intro n q h
  exact ⟨hI.1.occ_nonneg n q h, hI.1.occ_le_cap n q h⟩

/-- C4: at every observation point between steps, each queue's
histogram entries sum to the current clock minus the initial clock
(conservation of time): `_set_time` books `event.time − clock` into
the bucket of the occupancy that held over the elapsed interval,
before any occupancy is mutated. -/
theorem time_conservation (qs : List QState) (startq : String) (arr : PyRange)
    (g : RNG) (t? : Option ℚ) (s : SimState)
    (hq : ∀ q ∈ qs, ValidQueue q)
    (harr0 : 0 ≤ arr.start) (harr1 : arr.start ≤ arr.stop) (hg : RNGValid g)
    (hstart : ((initSim qs startq arr g).queues startq).isSome = true)
    (ht : ∀ t ∈ t?, 0 ≤ t)
    (hreach : Reachable (startSim (initSim qs startq arr g) t?) s) :
    ∀ n q, s.queues n = some q →
      q.times_per_size.sum = s.time - (startSim (initSim qs startq arr g) t?).time := by
  have hI := reachable_engineInv
    (startSim_engineInv qs startq arr g t? hq harr0 harr1 hg hstart ht) hreach
  intro n q h
  rw [startSim_time, hI.1.hist_sum n q h]
  ring

/-- C6: events are processed in non-decreasing time order and the
clock never decreases: in every reachable state all pending events
lie at or after the clock, and any step pops an event at or after the
clock, sets the clock to exactly that event's time, and leaves every
remaining or newly scheduled event at or after the new clock. -/
theorem event_times_monotone (qs : List QState) (startq : String) (arr : PyRange)
    (g : RNG) (t? : Option ℚ) (s : SimState)
    (hq : ∀ q ∈ qs, ValidQueue q)
    (harr0 : 0 ≤ arr.start) (harr1 : arr.start ≤ arr.stop) (hg : RNGValid g)
    (hstart : ((initSim qs startq arr g).queues startq).isSome = true)
    (ht : ∀ t ∈ t?, 0 ≤ t)
    (hreach : Reachable (startSim (initSim qs startq arr g) t?) s) :
    (∀ f ∈ s.schedule, s.time ≤ f.time) ∧
    (∀ e s', Step s e s' → s.time ≤ e.time ∧ s'.time = e.time ∧ s.time ≤ s'.time ∧
      ∀ f ∈ s'.schedule, s'.time ≤ f.time) := by
  have hI := reachable_engineInv
    (startSim_engineInv qs startq arr g t? hq harr0 harr1 hg hstart ht) hreach
  refine ⟨hI.1.future, ?_⟩
  intro e s' hs
  have hmem := (step_earliest hs).1
  have h1 : s.time ≤ e.time := hI.1.future e hmem
  have h2 : s'.time = e.time := step_time hs
  have hI' := step_engineInv hI hs
  refine ⟨h1, h2, ?_, hI'.1.future⟩
  rw [h2]
  exact h1

/-- C7: after `start()` every reachable schedule still holds an
ARRIVAL (each processed ARRIVAL schedules the next, and no other
transition removes one), so the schedule is never empty and
`_pop_next_event` always succeeds. -/
theorem schedule_never_empty (qs : List QState) (startq : String) (arr : PyRange)
    (g : RNG) (t? : Option ℚ) (s : SimState)
    (hq : ∀ q ∈ qs, ValidQueue q)
    (harr0 : 0 ≤ arr.start) (harr1 : arr.start ≤ arr.stop) (hg : RNGValid g)
    (hstart : ((initSim qs startq arr g).queues startq).isSome = true)
    (ht : ∀ t ∈ t?, 0 ≤ t)
    (hreach : Reachable (startSim (initSim qs startq arr g) t?) s) :
    (∃ f ∈ s.schedule, f.kind = EventKind.arrival) ∧ s.schedule ≠ [] ∧
      (popEvent s).isSome = true := by
  have hI := reachable_engineInv
    (startSim_engineInv qs startq arr g t? hq harr0 harr1 hg hstart ht) hreach
  obtain ⟨f, hf, hfk⟩ := countArr_pos_mem s.schedule (by rw [hI.2.2]; omega)
  have hne : s.schedule ≠ [] := by
    intro h0
    rw [h0] at hf
    exact absurd hf (List.not_mem_nil f)
  refine ⟨⟨f, hf, hfk⟩, hne, ?_⟩
  rw [popEvent]
  have := findEarliest_isSome s.schedule hne
  rcases hfe : findEarliest s.schedule with _ | e
  · rw [hfe] at this
    exact absurd this (by simp)
  · rfl

/-- The single-queue configuration shared by the reachability
witnesses. -/
def wQ : QState := mkQueue qnA 1 1 ⟨1, 2⟩ []

/-- Its freshly started simulator. -/
def wStart : SimState :=
  startSim (initSim [wQ] qnA ⟨2, 4⟩ (RNG.fromList [1/2] 0)) none

/-- Witness for C3 at the start state of a one-queue configuration. -/
theorem occupancy_in_bounds_witness :
    ((∀ q ∈ [wQ], ValidQueue q) ∧ (0 : ℤ) ≤ (2 : ℤ) ∧ (2 : ℤ) ≤ (4 : ℤ) ∧
      RNGValid (RNG.fromList [1/2] 0) ∧
      ((initSim [wQ] qnA ⟨2, 4⟩ (RNG.fromList [1/2] 0)).queues qnA).isSome = true) ∧
    (∀ n q, wStart.queues n = some q → 0 ≤ q.in_queue ∧ q.in_queue ≤ q.max_queue_size) :=
  ⟨⟨by decide, by decide, by decide, by decide, by decide⟩,
    occupancy_in_bounds [wQ] qnA ⟨2, 4⟩ (RNG.fromList [1/2] 0) none wStart
      (by decide) (by decide) (by decide) (by decide) (by decide)
      (fun t ht => by simp at ht) Reachable.refl⟩

/-- Witness for C4 at the start state of a one-queue configuration. -/
theorem time_conservation_witness :
    ((∀ q ∈ [wQ], ValidQueue q) ∧
      ((initSim [wQ] qnA ⟨2, 4⟩ (RNG.fromList [1/2] 0)).queues qnA).isSome = true) ∧
    (∀ n q, wStart.queues n = some q →
      q.times_per_size.sum = wStart.time -
        (startSim (initSim [wQ] qnA ⟨2, 4⟩ (RNG.fromList [1/2] 0)) none).time) :=
  ⟨⟨by decide, by decide⟩,
    time_conservation [wQ] qnA ⟨2, 4⟩ (RNG.fromList [1/2] 0) none wStart
      (by decide) (by decide) (by decide) (by decide) (by decide)
      (fun t ht => by simp at ht) Reachable.refl⟩

/-- Witness for C6 at the start state of a one-queue configuration. -/
theorem event_times_monotone_witness :
    ((∀ q ∈ [wQ], ValidQueue q) ∧ RNGValid (RNG.fromList [1/2] 0)) ∧
    ((∀ f ∈ wStart.schedule, wStart.time ≤ f.time) ∧
      (∀ e s', Step wStart e s' →
        wStart.time ≤ e.time ∧ s'.time = e.time ∧ wStart.time ≤ s'.time ∧
        ∀ f ∈ s'.schedule, s'.time ≤ f.time)) :=
  ⟨⟨by decide, by decide⟩,
    event_times_monotone [wQ] qnA ⟨2, 4⟩ (RNG.fromList [1/2] 0) none wStart
      (by decide) (by decide) (by decide) (by decide) (by decide)
      (fun t ht => by simp at ht) Reachable.refl⟩

/-- Witness for C7 at the start state of a one-queue configuration. -/
theorem schedule_never_empty_witness :
    ((∀ q ∈ [wQ], ValidQueue q) ∧
      ((initSim [wQ] qnA ⟨2, 4⟩ (RNG.fromList [1/2] 0)).queues qnA).isSome = true) ∧
    ((∃ f ∈ wStart.schedule, f.kind = EventKind.arrival) ∧ wStart.schedule ≠ [] ∧
      (popEvent wStart).isSome = true) :=
  ⟨⟨by decide, by decide⟩,
    schedule_never_empty [wQ] qnA ⟨2, 4⟩ (RNG.fromList [1/2] 0) none wStart
      (by decide) (by decide) (by decide) (by decide) (by decide)
      (fun t ht => by simp at ht) Reachable.refl⟩

/-!
## C9: two-queue network with a 100% edge versus a single queue
-/

/-- With a single outbound entry of probability 1, the routing loop
elects that entry for every draw not exceeding 1, so fixing the
external destination draw to 0 in the network runs below loses no
behaviour. -/
lemma chooseDest_prob_one (b : String) (x : ℚ) (hx : x ≤ 1) :
    chooseDest [(b, 1)] x = some b := by
  have h : x - 1 ≤ 0 := by linarith
  simp [chooseDest, destFold, h]

/-- Queue `A` of the two-queue network: non-terminal, one server,
capacity 1, service range (1,2), all passages to `B`. -/
def c9A : QState := mkQueue qnA 1 1 ⟨1, 2⟩ [(qnB, 1)]

/-- Queue `B`: terminal, one server, capacity 1, service range (1,2). -/
def c9B : QState := mkQueue qnB 1 1 ⟨1, 2⟩ []

/-- The two-queue network, started with a forced first arrival at
time 1, arrival range (2,4), replay source cycling on 1/2. -/
def c9Net : SimState :=
  startSim (initSim [c9A, c9B] qnA ⟨2, 4⟩ (RNG.fromList [1/2] 0)) (some 1)

/-- The single-queue simulator of `main.py` with the same driver
inputs and `B`'s service range. -/
def c9Single : SingleState :=
  startSingle (initSingle 1 1 ⟨2, 4⟩ ⟨1, 2⟩ (RNG.fromList [1/2] 0)) (some 1)

/-- C9 refuted at a concrete configuration: driving both simulators
with the same loop (budget of 3 random draws, same replay source,
same forced start) gives final clock 5/2 for the network but 4 for
the single queue, and different occupancy histograms for `B`; the
run is short enough that no two scheduled events ever share a
timestamp, so the heap's tie policy plays no role. -/
theorem network_vs_single_statistics_differ :
    (driveNet 0 10 c9Net 3).time ≠ (driveSingle 10 c9Single 3).time ∧
    ((driveNet 0 10 c9Net 3).queues qnB).map QState.times_per_size
      ≠ some (driveSingle 10 c9Single 3).times_per_size := by
  constructor
  · decide
  · decide

/-- The amended C9: the 100% edge does make every passage of `A` land
in `B`, but the composed system does *not* reproduce the single
queue's statistics — `A`'s service stage both delays clients and
consumes draws from the shared source — and already at the
three-draw run above the final clocks are 5/2 versus 4. -/
theorem network_vs_single_concrete_clocks :
    (driveNet 0 10 c9Net 3).time = 5/2 ∧
    (driveSingle 10 c9Single 3).time = 4 ∧
    ((5 : ℚ)/2) ≠ 4 := by
  refine ⟨by decide, by decide, by decide⟩
